import Mathlib

/-!
# PolyLabs backend: position / ledger engine

A shallow embedding of `scripts/backend/handlers_trades.go`,
`scripts/backend/handlers_positions.go` and `scripts/backend/handlers_rankings.go`.

* Money, prices and share counts are Go `float64`; they are modelled as rationals
  (arithmetic taken as exact).
* The Supabase tables `league_members`, `positions` and `trades` are modelled as lists of rows
  held in a `Store`; a `SELECT` returns the matching rows in table order, an `INSERT` appends
  a row, an `UPDATE` rewrites the named columns of every matching row in place and a `DELETE`
  removes every matching row.  The handlers discard the error of every store write, so the
  functions below describe the run in which the store answers every request;
  `ProcessTradeHandlerWithFaults` is the trade handler against a store whose writes may fail.
* Member rows are ordered for the rankings by a stable sort on `total_pnl`, descending.
* The Gamma market API is a lookup `String → Option MarketData`; `none` stands for a transport
  error or a non-200 answer.
* The Go library function `strings.ToLower` follows the Unicode case tables; it is the
  parameter `lower` of the settlement definitions, and every settlement theorem holds for
  every `lower`.  The example ledgers use `asciiLower`.
* `SupabaseRequest` pastes filter values into the URL unescaped.  Member, position and league
  ids are generated by the store; the market id and the outcome of a trade request are stored
  as sent, so the position lookup of a sell is modelled with the characters that do not reach
  the store as written (`querySafe`).
* `completeTrade` and `bothReadThenWrite` split the trade handler at its read of the member
  row, for two requests that are in flight at once.
-/

namespace PolyLabs

/-! ## Data model -/

/-- A row of `league_members` (the columns the engine reads or writes). -/
structure Member where
  id : String
  leagueId : String
  currentBalance : ℚ
  totalPnl : ℚ
  totalTrades : Int
  winRate : ℚ
  rank : Int
deriving DecidableEq

/-- A row of `positions`.  The column `id` is assigned by the store on insert. -/
structure Position where
  id : Nat
  leagueMemberId : String
  marketId : String
  marketSlug : Option String
  marketQuestion : String
  outcome : String
  shares : ℚ
  entryPrice : ℚ
  currentPrice : ℚ
  unrealizedPnl : ℚ
deriving DecidableEq

/-- A row of `trades`; `pnl = none` is the JSON `null`. -/
structure Trade where
  leagueMemberId : String
  marketId : String
  marketSlug : Option String
  marketQuestion : String
  tradeType : String
  outcome : String
  shares : ℚ
  price : ℚ
  totalValue : ℚ
  pnl : Option ℚ
deriving DecidableEq

/-- The ledger store: the three tables and the next row id the store hands out for
`positions`. -/
structure Store where
  members : List Member
  positions : List Position
  trades : List Trade
  nextPositionId : Nat
deriving DecidableEq

/-- The decoded body of a trade request (`TradeRequest` in `types.go`). -/
structure TradeRequest where
  leagueMemberId : String
  marketId : String
  marketSlug : Option String
  marketQuestion : String
  tradeType : String
  outcome : String
  shares : ℚ
  price : ℚ
deriving DecidableEq

/-- What a handler writes back: `WriteError status message` or the success body of
`ProcessTradeHandler` (`new_balance`, `pnl`). -/
inductive Response where
  | error (status : Nat) (message : String)
  | success (newBalance : ℚ) (pnl : Option ℚ)
deriving DecidableEq

/-! ## Store operations used by the handlers -/

/-- The query `SupabaseSelect("league_members", {"id": "eq." + id})`. -/
def selectMembersById (st : Store) (id : String) : List Member :=
  st.members.filter (fun m => m.id = id)

/-- Whether a character of a filter value reaches the store as written.  `SupabaseRequest`
pastes the filter values into the URL without escaping them (supabase.go:41-46), so the
characters with a meaning in a URL query do not: `&` (38) ends the parameter, `#` (35) starts
the fragment, `%` (37) starts an escape, `+` (43) and the space (32) are not sent as
themselves, and a control character (below 32, or 127) is refused by the HTTP client. -/
def querySafeChar (c : Char) : Bool :=
  decide (32 < c.toNat) && decide (c.toNat ≠ 35) && decide (c.toNat ≠ 37) &&
    decide (c.toNat ≠ 38) && decide (c.toNat ≠ 43) && decide (c.toNat ≠ 127)

/-- Whether a filter value reaches the store as written: all its characters do. -/
def querySafe (s : String) : Bool := s.data.all querySafeChar

/-- The query `SupabaseSelect("positions", {league_member_id, market_id, outcome,
"limit": "1"})`: the first matching row in table order, if any.  When one of the three values
does not reach the store as written, the request is not the lookup of that triple; it is
answered without the row of the triple, which is modelled as the failed query the handler
reads as no row (`positions, _ :=`, line 56). -/
def selectPositionLimit1 (st : Store) (memberId marketId outcome : String) : List Position :=
  if querySafe memberId ∧ querySafe marketId ∧ querySafe outcome then
    (st.positions.filter (fun p =>
      p.leagueMemberId = memberId ∧ p.marketId = marketId ∧ p.outcome = outcome)).take 1
  else []

/-- The write `SupabaseInsert("positions", positionData)` for the row a buy creates: the
store assigns the row id. -/
def insertPosition (st : Store) (req : TradeRequest) : Store :=
  { st with
    positions := st.positions ++ [{
      id := st.nextPositionId
      leagueMemberId := req.leagueMemberId
      marketId := req.marketId
      marketSlug := req.marketSlug
      marketQuestion := req.marketQuestion
      outcome := req.outcome
      shares := req.shares
      entryPrice := req.price
      currentPrice := req.price
      unrealizedPnl := 0 }]
    nextPositionId := st.nextPositionId + 1 }

/-- The write `SupabaseDelete("positions", {"id": "eq." + positionID})`. -/
def deletePositionById (st : Store) (positionId : Nat) : Store :=
  { st with positions := st.positions.filter (fun p => ¬ p.id = positionId) }

/-- The write `SupabaseUpdate("positions", {"id": "eq." + positionID},
{shares, unrealized_pnl})`. -/
def updatePositionShares (st : Store) (positionId : Nat) (shares unrealizedPnl : ℚ) : Store :=
  { st with
    positions := st.positions.map (fun p =>
      if p.id = positionId then { p with shares := shares, unrealizedPnl := unrealizedPnl }
      else p) }

/-- The write `SupabaseInsert("trades", tradeData)`. -/
def insertTrade (st : Store) (t : Trade) : Store :=
  { st with trades := st.trades ++ [t] }

/-- The query `SupabaseSelect("trades", {league_member_id: "eq." + id,
trade_type: "eq.sell"})`. -/
def selectSellTrades (st : Store) (memberId : String) : List Trade :=
  st.trades.filter (fun t => t.leagueMemberId = memberId ∧ t.tradeType = "sell")

/-- The write `SupabaseUpdate("league_members", {"id": "eq." + id},
{current_balance, total_pnl, total_trades, win_rate})`, the update `ProcessTradeHandler`
issues. -/
def updateMemberAfterTrade (st : Store) (memberId : String)
    (newBalance totalPnl : ℚ) (totalTrades : Int) (winRate : ℚ) : Store :=
  { st with
    members := st.members.map (fun m =>
      if m.id = memberId then
        { m with currentBalance := newBalance, totalPnl := totalPnl,
                 totalTrades := totalTrades, winRate := winRate }
      else m) }

/-- The read `GetFloat64Value(t, "pnl")`: a `null` column reads as 0. -/
def pnlValue (t : Trade) : ℚ := t.pnl.getD 0

/-! ## `ProcessTradeHandler` -/

/-- The position step of `ProcessTradeHandler` (lines 37-85): the store after the position
write, the `pnl` pointer and `newBalance`. -/
def applyPosition (st : Store) (req : TradeRequest) (currentBalance : ℚ) :
    Store × Option ℚ × ℚ :=
  let totalValue := req.shares * req.price
  if req.tradeType = "buy" then
    (insertPosition st req, none, currentBalance - totalValue)
  else if req.tradeType = "sell" then
    match selectPositionLimit1 st req.leagueMemberId req.marketId req.outcome with
    | [] => (st, none, currentBalance)
    | position :: _ =>
      let entryPrice := position.entryPrice
      let positionShares := position.shares
      let positionID := position.id
      let calculatedPnl := (req.price - entryPrice) * req.shares
      let newBalance := currentBalance + totalValue
      if req.shares ≥ positionShares then
        (deletePositionById st positionID, some calculatedPnl, newBalance)
      else
        let remainingShares := positionShares - req.shares
        let currentPrice := position.currentPrice
        (updatePositionShares st positionID remainingShares
            ((currentPrice - entryPrice) * remainingShares),
          some calculatedPnl, newBalance)
  else
    (st, none, currentBalance)

/-- The `tradeData` row of `ProcessTradeHandler` (lines 87-98). -/
def tradeData (req : TradeRequest) (pnl : Option ℚ) : Trade :=
  { leagueMemberId := req.leagueMemberId
    marketId := req.marketId
    marketSlug := req.marketSlug
    marketQuestion := req.marketQuestion
    tradeType := req.tradeType
    outcome := req.outcome
    shares := req.shares
    price := req.price
    totalValue := req.shares * req.price
    pnl := pnl }

/-- The win rate computed at lines 107-121 from the selected trades. -/
def computeWinRate (sellTrades : List Trade) : ℚ :=
  if sellTrades.length > 0 then
    let profitable := (sellTrades.filter (fun t => pnlValue t > 0)).length
    (profitable : ℚ) / (sellTrades.length : ℚ) * 100
  else 0

/-- The handler `ProcessTradeHandler` on a decoded POST request (the method check and the JSON
decoding of lines 10-19 come before): the store afterwards and the response.  An empty member
list stands for `err != nil || len(members) == 0`. -/
def ProcessTradeHandler (st : Store) (req : TradeRequest) : Store × Response :=
  let totalValue := req.shares * req.price
  match selectMembersById st req.leagueMemberId with
  | [] => (st, Response.error 404 "League member not found")
  | member :: _ =>
    let currentBalance := member.currentBalance
    if req.tradeType = "buy" ∧ totalValue > currentBalance then
      (st, Response.error 400 "Insufficient balance")
    else
      let r := applyPosition st req currentBalance
      let pnl := r.2.1
      let newBalance := r.2.2
      let st2 := insertTrade r.1 (tradeData req pnl)
      let totalPnl := match pnl with
        | some v => member.totalPnl + v
        | none => member.totalPnl
      let totalTrades := member.totalTrades + 1
      let winRate := computeWinRate (selectSellTrades st2 req.leagueMemberId)
      (updateMemberAfterTrade st2 req.leagueMemberId newBalance totalPnl totalTrades winRate,
        Response.success newBalance pnl)

/-- The row a buy inserts into `positions` (lines 41-51), with the id the store assigns. -/
def boughtPosition (st : Store) (req : TradeRequest) : Position :=
  { id := st.nextPositionId
    leagueMemberId := req.leagueMemberId
    marketId := req.marketId
    marketSlug := req.marketSlug
    marketQuestion := req.marketQuestion
    outcome := req.outcome
    shares := req.shares
    entryPrice := req.price
    currentPrice := req.price
    unrealizedPnl := 0 }

/-! ## Settlement (`handlers_positions.go`) -/

/-- An element of the `tokens` array of a Gamma market: `outcome` is the text
`fmt.Sprintf("%v", token["outcome"])` and `winner` is `token["winner"].(bool)`, which is
false when the key is absent or not a boolean (an element that is not an object is never a
winner either). -/
structure Token where
  outcome : String
  winner : Bool
deriving DecidableEq

/-- The fields of a Gamma market answer that the engine reads: `closed` (false when absent),
the `tokens` array (empty when absent) and the parsed `outcomePrices` (empty when absent). -/
structure MarketData where
  closed : Bool
  tokens : List Token
  outcomePrices : List ℚ
deriving DecidableEq

/-- A case map that lower-cases the ASCII letters A-Z and leaves every other character as it
is.  It agrees with `strings.ToLower` on ASCII text and is the case map of the example
ledgers, whose outcomes are ASCII. -/
def asciiLower (s : String) : String := ⟨s.data.map Char.toLower⟩

/-- The loop of `findWinningOutcome` over the tokens: the first token flagged winner decides.
The argument `lower` stands for `strings.ToLower`, which follows the Unicode case tables of
the Go library; it is a parameter of every definition that calls it. -/
def findWinningOutcomeIn (lower : String → String) : List Token → String
  | [] => ""
  | token :: rest =>
    if token.winner then lower token.outcome else findWinningOutcomeIn lower rest

/-- The function `findWinningOutcome`: the lower-cased outcome of the first winner token,
`""` if there is none. -/
def findWinningOutcome (lower : String → String) (marketData : MarketData) : String :=
  findWinningOutcomeIn lower marketData.tokens

/-- The write `SupabaseUpdate("league_members", {"id": "eq." + userID},
{current_balance, total_pnl, total_trades})`, the update `settlePosition` issues. -/
def updateMemberAfterSettle (st : Store) (memberId : String)
    (newBalance newTotalPnl : ℚ) (totalTrades : Int) : Store :=
  { st with
    members := st.members.map (fun m =>
      if m.id = memberId then
        { m with currentBalance := newBalance, totalPnl := newTotalPnl,
                 totalTrades := totalTrades }
      else m) }

/-- The `settle` row `settlePosition` inserts into `trades`. -/
def settleTrade (lower : String → String) (position : Position) (marketID : String)
    (payoutPerShare : ℚ) : Trade :=
  { leagueMemberId := position.leagueMemberId
    marketId := marketID
    marketSlug := position.marketSlug
    marketQuestion := position.marketQuestion
    tradeType := "settle"
    outcome := lower position.outcome
    shares := position.shares
    price := payoutPerShare
    totalValue := position.shares * payoutPerShare
    pnl := some (position.shares * payoutPerShare - position.entryPrice * position.shares) }

/-- The function `settlePosition`: settles one position against the winning outcome. -/
def settlePosition (lower : String → String) (st : Store) (position : Position)
    (marketID winningOutcome : String) : Store :=
  let userID := position.leagueMemberId
  let heldOutcome := lower position.outcome
  let shares := position.shares
  let entryPrice := position.entryPrice
  let payoutPerShare : ℚ := if heldOutcome = winningOutcome then 1 else 0
  let totalPayout := shares * payoutPerShare
  let finalPnl := totalPayout - entryPrice * shares
  match selectMembersById st userID with
  | [] => st
  | member :: _ =>
    let newBalance := member.currentBalance + totalPayout
    let newTotalPnl := member.totalPnl + finalPnl
    let st1 := insertTrade st (settleTrade lower position marketID payoutPerShare)
    let st2 := updateMemberAfterSettle st1 userID newBalance newTotalPnl
      (member.totalTrades + 1)
    deletePositionById st2 position.id

/-- The body of the market loop of `settleResolvedMarkets` (lines 113-138) for one market id;
`positions` is the snapshot read at line 97. -/
def settleMarket (lower : String → String) (fetch : String → Option MarketData)
    (positions : List Position) (st : Store) (marketID : String) : Store :=
  match fetch marketID with
  | none => st
  | some marketData =>
    if ¬ marketData.closed then st
    else
      let winningOutcome := findWinningOutcome lower marketData
      if winningOutcome = "" then st
      else
        positions.foldl (fun s position =>
          if position.marketId ≠ marketID then s
          else settlePosition lower s position marketID winningOutcome) st

/-- The keys of the `marketIDs` set built at lines 103-108. -/
def marketIDs (positions : List Position) : List String :=
  (positions.map (fun p => p.marketId)).dedup

/-- The market loop of `settleResolvedMarkets` run over the market ids in the order `ids`
(Go leaves the iteration order of a map unspecified). -/
def settleMarkets (lower : String → String) (fetch : String → Option MarketData)
    (positions : List Position) (ids : List String) (st : Store) : Store :=
  ids.foldl (settleMarket lower fetch positions) st

/-- The sweep `settleResolvedMarkets`, with the map iterated in the order of `marketIDs`. -/
def settleResolvedMarkets (lower : String → String) (fetch : String → Option MarketData)
    (st : Store) : Store :=
  let positions := st.positions
  if positions.length = 0 then st
  else settleMarkets lower fetch positions (marketIDs positions) st

/-- Whether the market loop of `settleResolvedMarkets` reaches `settlePosition` for a market:
the quote is fetched, the market is closed and a winning outcome is found. -/
def isSettled (lower : String → String) (fetch : String → Option MarketData)
    (marketID : String) : Bool :=
  match fetch marketID with
  | none => false
  | some marketData => marketData.closed && decide (findWinningOutcome lower marketData ≠ "")

/-! ## Revaluation (`updateAllPositions`) -/

/-- The function `parseOutcomePrices`: the yes and the no price of a market answer, each 0.5
unless the parsed `outcomePrices` list has a first, respectively a second, entry. -/
def parseOutcomePrices (data : MarketData) : ℚ × ℚ :=
  let yesPrice : ℚ := match data.outcomePrices with
    | p :: _ => p
    | [] => 1 / 2
  let noPrice : ℚ := match data.outcomePrices with
    | _ :: p :: _ => p
    | _ => 1 / 2
  (yesPrice, noPrice)

/-- The write `SupabaseUpdate("positions", {"id": "eq." + positionID},
{current_price, unrealized_pnl, updated_at})`; the time stamp is not modelled. -/
def updatePositionPrice (st : Store) (positionId : Nat) (currentPrice unrealizedPnl : ℚ) :
    Store :=
  { st with
    positions := st.positions.map (fun p =>
      if p.id = positionId then
        { p with currentPrice := currentPrice, unrealizedPnl := unrealizedPnl }
      else p) }

/-- The price `updateAllPositions` picks for a held outcome (lines 74-78): the yes price
unless the stored outcome is the text "no". -/
def pickPrice (outcome : String) (yesPrice noPrice : ℚ) : ℚ :=
  if outcome = "no" then noPrice else yesPrice

/-- The body of the market loop of `updateAllPositions` (lines 60-91) for one market id;
`positions` is the snapshot read at line 45. -/
def revalueMarket (fetch : String → Option MarketData) (positions : List Position)
    (st : Store) (marketID : String) : Store :=
  match fetch marketID with
  | none => st
  | some data =>
    let prices := parseOutcomePrices data
    positions.foldl (fun s position =>
      if position.marketId = marketID then
        let currentPrice := pickPrice position.outcome prices.1 prices.2
        let unrealizedPnl := (currentPrice - position.entryPrice) * position.shares
        updatePositionPrice s position.id currentPrice unrealizedPnl
      else s) st

/-- The market loop of `updateAllPositions` run over the market ids in the order `ids`. -/
def revalueMarkets (fetch : String → Option MarketData) (positions : List Position)
    (ids : List String) (st : Store) : Store :=
  ids.foldl (revalueMarket fetch positions) st

/-- The sweep `updateAllPositions`, with the map iterated in the order of `marketIDs`. -/
def updateAllPositions (fetch : String → Option MarketData) (st : Store) : Store :=
  let positions := st.positions
  if positions.length = 0 then st
  else revalueMarkets fetch positions (marketIDs positions) st

/-! ## Rankings (`handlers_rankings.go`) -/

/-- The order `total_pnl.desc`: `a` may stand before `b`. -/
def pnlDesc (a b : Member) : Prop := a.totalPnl ≥ b.totalPnl

instance pnlDescDecidable : DecidableRel pnlDesc :=
  fun a b => inferInstanceAs (Decidable (a.totalPnl ≥ b.totalPnl))

instance pnlDescTotal : IsTotal Member pnlDesc :=
  ⟨fun a b => le_total b.totalPnl a.totalPnl⟩

instance pnlDescTrans : IsTrans Member pnlDesc :=
  ⟨fun _ _ _ h1 h2 => le_trans h2 h1⟩

/-- The query `SupabaseSelect("league_members", {"league_id": "eq." + leagueID,
"order": "total_pnl.desc"})`: the rows of the league by decreasing `total_pnl`, rows with
equal `total_pnl` in table order. -/
def selectLeagueMembersOrdered (st : Store) (leagueID : String) : List Member :=
  (st.members.filter (fun m => m.leagueId = leagueID)).insertionSort pnlDesc

/-- The write `SupabaseUpdate("league_members", {"id": "eq." + memberID}, {"rank": rank})`. -/
def updateMemberRank (st : Store) (memberId : String) (rank : Int) : Store :=
  { st with
    members := st.members.map (fun m => if m.id = memberId then { m with rank := rank } else m) }

/-- The loop `for i, member := range members` of the ranking handlers, entered with the loop
index `i`: each member row is given the rank `i + 1`. -/
def updateRanks (st : Store) (i : Nat) : List Member → Store
  | [] => st
  | member :: rest => updateRanks (updateMemberRank st member.id ((i : Int) + 1)) (i + 1) rest

/-- The handler `UpdateLeagueRankingsHandler` for the league of the request path: the store
afterwards and the reported `members_updated`. -/
def UpdateLeagueRankingsHandler (st : Store) (leagueID : String) : Store × Nat :=
  let members := selectLeagueMembersOrdered st leagueID
  (updateRanks st 0 members, members.length)

/-- The sweep `updateAllLeagueRankings` over the ids of the active leagues, which the
`leagues` table supplies. -/
def updateAllLeagueRankings (activeLeagues : List String) (st : Store) : Store :=
  activeLeagues.foldl (fun s leagueID =>
    updateRanks s 0 (selectLeagueMembersOrdered s leagueID)) st

/-! ## Two trade requests in flight -/

/-- Lines 30-137 of `ProcessTradeHandler`, run on the store `st` with the member row `member`
that the read at line 23 returned: the balance check, the position write, the trade insert
and the member update, whose `current_balance`, `total_pnl` and `total_trades` are computed
from `member`.  The handler holds no lock between the read and these writes. -/
def completeTrade (st : Store) (req : TradeRequest) (member : Member) : Store × Response :=
  let totalValue := req.shares * req.price
  let currentBalance := member.currentBalance
  if req.tradeType = "buy" ∧ totalValue > currentBalance then
    (st, Response.error 400 "Insufficient balance")
  else
    let r := applyPosition st req currentBalance
    let pnl := r.2.1
    let newBalance := r.2.2
    let st2 := insertTrade r.1 (tradeData req pnl)
    let totalPnl := match pnl with
      | some v => member.totalPnl + v
      | none => member.totalPnl
    let totalTrades := member.totalTrades + 1
    let winRate := computeWinRate (selectSellTrades st2 req.leagueMemberId)
    (updateMemberAfterTrade st2 req.leagueMemberId newBalance totalPnl totalTrades winRate,
      Response.success newBalance pnl)

/-- Two calls of `ProcessTradeHandler` in flight at once, scheduled so that both read their
member row (line 23) before either goes on: then the first runs to its end, then the second.
A call whose read finds no member answers 404 and writes nothing. -/
def bothReadThenWrite (st : Store) (first second : TradeRequest) : Store :=
  let readFirst := selectMembersById st first.leagueMemberId
  let readSecond := selectMembersById st second.leagueMemberId
  let st1 := match readFirst with
    | [] => st
    | member :: _ => (completeTrade st first member).1
  match readSecond with
  | [] => st1
  | member :: _ => (completeTrade st1 second member).1

/-! ## Store writes that fail -/

/-- Which of the three store writes of one `ProcessTradeHandler` call fail (`true`): the
position write (insert, update or delete), the trade insert, the member update.  A failing
write leaves its table as it was. -/
structure WriteFaults where
  positionWrite : Bool
  tradeInsert : Bool
  memberUpdate : Bool
deriving DecidableEq

/-- No write fails. -/
def noFaults : WriteFaults :=
  { positionWrite := false, tradeInsert := false, memberUpdate := false }

/-- The handler `ProcessTradeHandler` run against a store in which the writes marked in
`faults` fail.  The handler drops the error every store write returns (lines 52, 74, 82, 99
and 129), so its control flow and its answer do not depend on them. -/
def ProcessTradeHandlerWithFaults (faults : WriteFaults) (st : Store) (req : TradeRequest) :
    Store × Response :=
  let totalValue := req.shares * req.price
  match selectMembersById st req.leagueMemberId with
  | [] => (st, Response.error 404 "League member not found")
  | member :: _ =>
    let currentBalance := member.currentBalance
    if req.tradeType = "buy" ∧ totalValue > currentBalance then
      (st, Response.error 400 "Insufficient balance")
    else
      let r := applyPosition st req currentBalance
      let pnl := r.2.1
      let newBalance := r.2.2
      let st1 := if faults.positionWrite then st else r.1
      let st2 := if faults.tradeInsert then st1 else insertTrade st1 (tradeData req pnl)
      let totalPnl := match pnl with
        | some v => member.totalPnl + v
        | none => member.totalPnl
      let totalTrades := member.totalTrades + 1
      let winRate := computeWinRate (selectSellTrades st2 req.leagueMemberId)
      let st3 := if faults.memberUpdate then st2
        else updateMemberAfterTrade st2 req.leagueMemberId newBalance totalPnl totalTrades
          winRate
      (st3, Response.success newBalance pnl)

/-! ## Sequences of operations -/

/-- The (member, market, outcome) triple of a position, as stored. -/
def positionKey (p : Position) : String × String × String :=
  (p.leagueMemberId, p.marketId, p.outcome)

/-- The (member, market, outcome) triple a trade request names. -/
def requestKey (req : TradeRequest) : String × String × String :=
  (req.leagueMemberId, req.marketId, req.outcome)

/-- At most one position per (member, market, outcome) triple. -/
def UniqueTriples (positions : List Position) : Prop :=
  (positions.map positionKey).Nodup

instance uniqueTriplesDecidable (positions : List Position) :
    Decidable (UniqueTriples positions) :=
  inferInstanceAs (Decidable (positions.map positionKey).Nodup)

/-- One operation of the engine on the ledger: a trade request, a revaluation sweep or a
settlement sweep, the sweeps with the quote lookup they see. -/
inductive Op where
  | trade (req : TradeRequest)
  | revalue (fetch : String → Option MarketData)
  | settle (fetch : String → Option MarketData)

/-- The ledger after one operation. -/
def step (lower : String → String) (st : Store) : Op → Store
  | Op.trade req => (ProcessTradeHandler st req).1
  | Op.revalue fetch => updateAllPositions fetch st
  | Op.settle fetch => settleResolvedMarkets lower fetch st

/-- The ledger after a sequence of operations. -/
def run (lower : String → String) (st : Store) (ops : List Op) : Store :=
  ops.foldl (step lower) st

/-- No buy of the sequence names a triple that has an open position when the buy arrives. -/
def freshBuys (lower : String → String) : Store → List Op → Prop
  | _, [] => True
  | st, op :: rest =>
    (match op with
      | Op.trade req => req.tradeType = "buy" → requestKey req ∉ st.positions.map positionKey
      | _ => True) ∧
    freshBuys lower (step lower st op) rest

/-! ## Example ledgers

The scenario of the specification: a member with balance 1000 buys 100 "yes" shares of
market "M1" at 0.40, sells 40 of them at 0.60, and the market resolves to "yes". -/

/-- The member before any trade. -/
def exMember : Member :=
  { id := "u1", leagueId := "L1", currentBalance := 1000, totalPnl := 0, totalTrades := 0,
    winRate := 0, rank := 1 }

/-- The ledger before any trade. -/
def exStore0 : Store :=
  { members := [exMember], positions := [], trades := [], nextPositionId := 0 }

/-- Buy 100 "yes" shares of "M1" at 0.40. -/
def exBuy : TradeRequest :=
  { leagueMemberId := "u1", marketId := "M1", marketSlug := none, marketQuestion := "Q",
    tradeType := "buy", outcome := "yes", shares := 100, price := 2 / 5 }

/-- The position the buy opens. -/
def exPosition : Position :=
  { id := 0, leagueMemberId := "u1", marketId := "M1", marketSlug := none,
    marketQuestion := "Q", outcome := "yes", shares := 100, entryPrice := 2 / 5,
    currentPrice := 2 / 5, unrealizedPnl := 0 }

/-- The member after the buy. -/
def exMember1 : Member :=
  { exMember with currentBalance := 960, totalTrades := 1 }

/-- The ledger after the buy. -/
def exStore1 : Store :=
  { members := [exMember1], positions := [exPosition], trades := [tradeData exBuy none],
    nextPositionId := 1 }

/-- Sell 40 of the shares at 0.60. -/
def exSell : TradeRequest :=
  { exBuy with tradeType := "sell", shares := 40, price := 3 / 5 }

/-- Sell all 100 shares at 0.60. -/
def exSellAll : TradeRequest :=
  { exBuy with tradeType := "sell", shares := 100, price := 3 / 5 }

/-- A buy of -5 shares at price 1. -/
def exBadBuy : TradeRequest :=
  { exBuy with shares := -5, price := 1 }

/-- A buy of 3000 shares at 0.40, worth more than the balance of 1000. -/
def exBigBuy : TradeRequest :=
  { exBuy with shares := 3000 }

/-- The position after the sale of 40 shares. -/
def exPosition2 : Position :=
  { exPosition with shares := 60 }

/-- The member after the sale of 40 shares at 0.60. -/
def exMember2 : Member :=
  { exMember with currentBalance := 984, totalPnl := 8, totalTrades := 2, winRate := 100 }

/-- The ledger after the buy and the sale. -/
def exStore2 : Store :=
  { members := [exMember2], positions := [exPosition2],
    trades := [tradeData exBuy none, tradeData exSell (some 8)], nextPositionId := 1 }

/-- The ledger after the settlement of the remaining 60 shares, won. -/
def exStore3 : Store :=
  { members := [{ exMember2 with currentBalance := 1044, totalPnl := 44, totalTrades := 3 }],
    positions := [],
    trades := [tradeData exBuy none, tradeData exSell (some 8),
      settleTrade asciiLower exPosition2 "M1" 1],
    nextPositionId := 1 }

/-- Market "M1" resolved, won by "Yes". -/
def exMarket : MarketData :=
  { closed := true, tokens := [⟨"Yes", true⟩, ⟨"No", false⟩], outcomePrices := [] }

/-- A closed market in which both tokens are flagged winner. -/
def exMarketTwoWinners : MarketData :=
  { closed := true, tokens := [⟨"Yes", true⟩, ⟨"No", true⟩], outcomePrices := [] }

/-- The member after a buy of 100 shares at 0.40 and their settlement, won. -/
def exMemberHeld : Member :=
  { exMember with currentBalance := 1060, totalPnl := 60, totalTrades := 2 }

/-- A ledger in which the member bought 100 shares and held them until the market was
settled in their favour: the history holds one buy and one settle trade, no sell. -/
def exStoreHeld : Store :=
  { members := [exMemberHeld],
    positions := [],
    trades := [tradeData exBuy none, settleTrade asciiLower exPosition "M1" 1],
    nextPositionId := 1 }

/-- A position of 100 shares entered at 0.40 whose outcome was stored as "No". -/
def exPositionNo : Position :=
  { exPosition with outcome := "No" }

/-- A ledger holding that position. -/
def exStoreNo : Store :=
  { members := [exMember1], positions := [exPositionNo], trades := [], nextPositionId := 1 }

/-- An open market quoted at 0.70 for yes and 0.30 for no. -/
def exQuote : MarketData :=
  { closed := false, tokens := [], outcomePrices := [7 / 10, 3 / 10] }

/-- Two members of league "L1" with total pnl -10 and 50, in table order. -/
def exLeague : Store :=
  { members :=
      [{ id := "a", leagueId := "L1", currentBalance := 990, totalPnl := -10, totalTrades := 1,
         winRate := 0, rank := 1 },
       { id := "b", leagueId := "L1", currentBalance := 1050, totalPnl := 50, totalTrades := 1,
         winRate := 100, rank := 1 }],
    positions := [], trades := [], nextPositionId := 0 }

/-- The position insert fails, the trade insert and the member update succeed. -/
def exPositionInsertFails : WriteFaults :=
  { positionWrite := true, tradeInsert := false, memberUpdate := false }

/-- A position of another member on the same market and outcome, standing before the
scenario position in the table. -/
def exPositionOther : Position :=
  { id := 7, leagueMemberId := "u2", marketId := "M1", marketSlug := none,
    marketQuestion := "Q", outcome := "yes", shares := 10, entryPrice := 1 / 2,
    currentPrice := 1 / 2, unrealizedPnl := 0 }

/-- The ledger after the scenario buy, with the position of the other member first. -/
def exStoreMixed : Store :=
  { exStore1 with positions := [exPositionOther, exPosition] }

/-- The scenario buy for an outcome whose text contains the character `&`. -/
def exBuyAmp : TradeRequest :=
  { exBuy with outcome := "a&b" }

/-- The position that buy opens. -/
def exPositionAmp : Position :=
  { exPosition with outcome := "a&b" }

/-- The ledger after that buy. -/
def exStoreAmp : Store :=
  { members := [exMember1], positions := [exPositionAmp], trades := [tradeData exBuyAmp none],
    nextPositionId := 1 }

/-- The sale of 40 of those shares at 0.60. -/
def exSellAmp : TradeRequest :=
  { exSell with outcome := "a&b" }

/-- The sale of all 100 of those shares at 0.60. -/
def exSellAllAmp : TradeRequest :=
  { exSellAll with outcome := "a&b" }

/-- A buy of 50 "no" shares of "M1" at 0.50, worth 25. -/
def exBuy25 : TradeRequest :=
  { exBuy with outcome := "no", shares := 50, price := 1 / 2 }

/-! ## The win rate in the words of the specification -/

/-- A trade whose recorded pnl is positive (a null pnl is not). -/
def hasPositivePnl (t : Trade) : Bool :=
  match t.pnl with
  | some v => decide (0 < v)
  | none => false

/-- The win rate as the specification words it: 100 times the number of the member's sell
and settle trades with `pnl > 0`, divided by the number of the member's sell and settle
trades; 0 when the member has none. -/
def closingWinRate (trades : List Trade) (memberId : String) : ℚ :=
  let closing := trades.filter (fun t =>
    t.leagueMemberId = memberId ∧ (t.tradeType = "sell" ∨ t.tradeType = "settle"))
  if closing.length = 0 then 0
  else 100 * ((closing.filter hasPositivePnl).length : ℚ) / (closing.length : ℚ)

/-- The same ratio taken over the member's sell trades only. -/
def sellWinRate (trades : List Trade) (memberId : String) : ℚ :=
  let sells := trades.filter (fun t => t.leagueMemberId = memberId ∧ t.tradeType = "sell")
  if sells.length = 0 then 0
  else 100 * ((sells.filter hasPositivePnl).length : ℚ) / (sells.length : ℚ)

/-! ## Facts about the store operations -/

/- In the theorems below `lower` is any case map; for the code it is `strings.ToLower`. -/
variable {lower : String → String}

theorem selectMembersById_updateMemberAfterTrade (st : Store) (id : String)
    (b t : ℚ) (n : Int) (w : ℚ) :
    selectMembersById (updateMemberAfterTrade st id b t n w) id =
      (selectMembersById st id).map (fun m =>
        { m with currentBalance := b, totalPnl := t, totalTrades := n, winRate := w }) := by
  unfold selectMembersById updateMemberAfterTrade
  simp only
  induction st.members with
  | nil => rfl
  | cons a l ih =>
    by_cases h : a.id = id
    · simp [List.filter_cons, h, ih]
    · simp [List.filter_cons, h, ih]

theorem selectMembersById_updateMemberAfterSettle (st : Store) (id : String)
    (b t : ℚ) (n : Int) :
    selectMembersById (updateMemberAfterSettle st id b t n) id =
      (selectMembersById st id).map (fun m =>
        { m with currentBalance := b, totalPnl := t, totalTrades := n }) := by
  unfold selectMembersById updateMemberAfterSettle
  simp only
  induction st.members with
  | nil => rfl
  | cons a l ih =>
    by_cases h : a.id = id
    · simp [List.filter_cons, h, ih]
    · simp [List.filter_cons, h, ih]

theorem applyPosition_members (st : Store) (req : TradeRequest) (b : ℚ) :
    (applyPosition st req b).1.members = st.members := by
  unfold applyPosition
  simp only
  split
  · rfl
  · split
    · split
      · rfl
      · split <;> rfl
    · rfl

theorem applyPosition_trades (st : Store) (req : TradeRequest) (b : ℚ) :
    (applyPosition st req b).1.trades = st.trades := by
  unfold applyPosition
  simp only
  split
  · rfl
  · split
    · split
      · rfl
      · split <;> rfl
    · rfl

/-- An accepted request: the three writes of `ProcessTradeHandler` in order. -/
theorem ProcessTradeHandler_accepted (st : Store) (req : TradeRequest) (m : Member)
    (ms : List Member) (hm : selectMembersById st req.leagueMemberId = m :: ms)
    (hacc : ¬ (req.tradeType = "buy" ∧ req.shares * req.price > m.currentBalance)) :
    ProcessTradeHandler st req =
      (updateMemberAfterTrade
          (insertTrade (applyPosition st req m.currentBalance).1
            (tradeData req (applyPosition st req m.currentBalance).2.1))
          req.leagueMemberId (applyPosition st req m.currentBalance).2.2
          (match (applyPosition st req m.currentBalance).2.1 with
            | some v => m.totalPnl + v
            | none => m.totalPnl)
          (m.totalTrades + 1)
          (computeWinRate (selectSellTrades
            (insertTrade (applyPosition st req m.currentBalance).1
              (tradeData req (applyPosition st req m.currentBalance).2.1))
            req.leagueMemberId)),
        Response.success (applyPosition st req m.currentBalance).2.2
          (applyPosition st req m.currentBalance).2.1) := by
  unfold ProcessTradeHandler
  simp only [hm]
  rw [if_neg hacc]

/-- The member rows of an accepted request afterwards. -/
theorem ProcessTradeHandler_accepted_members (st : Store) (req : TradeRequest) (m : Member)
    (ms : List Member) (hm : selectMembersById st req.leagueMemberId = m :: ms)
    (hacc : ¬ (req.tradeType = "buy" ∧ req.shares * req.price > m.currentBalance)) :
    selectMembersById (ProcessTradeHandler st req).1 req.leagueMemberId =
      (m :: ms).map (fun x =>
        { x with
          currentBalance := (applyPosition st req m.currentBalance).2.2
          totalPnl := (match (applyPosition st req m.currentBalance).2.1 with
            | some v => m.totalPnl + v
            | none => m.totalPnl)
          totalTrades := m.totalTrades + 1
          winRate := computeWinRate (selectSellTrades
            (insertTrade (applyPosition st req m.currentBalance).1
              (tradeData req (applyPosition st req m.currentBalance).2.1))
            req.leagueMemberId) }) := by
  rw [ProcessTradeHandler_accepted st req m ms hm hacc]
  simp only
  rw [selectMembersById_updateMemberAfterTrade]
  have h : selectMembersById (insertTrade (applyPosition st req m.currentBalance).1
      (tradeData req (applyPosition st req m.currentBalance).2.1)) req.leagueMemberId
      = m :: ms := by
    rw [← hm]
    unfold selectMembersById insertTrade
    simp only [applyPosition_members]
  rw [h]

/-! ## Buying and selling -/

/-- C1: for an existing member and a buy with `shares > 0`, `price > 0` and
`shares * price ≤ currentBalance`, `ProcessTradeHandler` answers with the new balance
`oldBalance - shares * price`, the member row carries that balance afterwards, and a position
of (member, market, outcome) exists with the bought shares, `entryPrice = price`,
`currentPrice = price` and `unrealizedPnl = 0`. -/
theorem buy_debits_balance_and_opens_position (st : Store) (req : TradeRequest)
    (m : Member) (ms : List Member)
    (hm : selectMembersById st req.leagueMemberId = m :: ms)
    (hbuy : req.tradeType = "buy") (hs : 0 < req.shares) (hp : 0 < req.price)
    (hbal : req.shares * req.price ≤ m.currentBalance) :
    (ProcessTradeHandler st req).2
        = Response.success (m.currentBalance - req.shares * req.price) none ∧
    (∃ m1 rest, selectMembersById (ProcessTradeHandler st req).1 req.leagueMemberId
        = m1 :: rest ∧ m1.currentBalance = m.currentBalance - req.shares * req.price) ∧
    (∃ p ∈ (ProcessTradeHandler st req).1.positions,
        p.leagueMemberId = req.leagueMemberId ∧ p.marketId = req.marketId ∧
        p.outcome = req.outcome ∧ p.shares = req.shares ∧ p.entryPrice = req.price ∧
        p.currentPrice = req.price ∧ p.unrealizedPnl = 0) := by
  have hacc : ¬ (req.tradeType = "buy" ∧ req.shares * req.price > m.currentBalance) :=
    fun h => absurd hbal (not_le.mpr h.2)
  have hap : applyPosition st req m.currentBalance
      = (insertPosition st req, none, m.currentBalance - req.shares * req.price) := by
    unfold applyPosition
    simp only [hbuy, if_true]
  refine ⟨?_, ?_, ?_⟩
  · rw [ProcessTradeHandler_accepted st req m ms hm hacc, hap]
  · rw [ProcessTradeHandler_accepted_members st req m ms hm hacc, hap]
    exact ⟨_, _, rfl, rfl⟩
  · rw [ProcessTradeHandler_accepted st req m ms hm hacc, hap]
    simp only [updateMemberAfterTrade, insertTrade, insertPosition]
    exact ⟨_, List.mem_append_right _ (List.mem_singleton.mpr rfl),
      rfl, rfl, rfl, rfl, rfl, rfl, rfl⟩

/-- C1, the scenario: balance 1000, buy 100 "yes" shares at 0.40 on "M1". -/
theorem buy_debits_balance_and_opens_position_witness :
    (ProcessTradeHandler exStore0 exBuy).2
        = Response.success (exMember.currentBalance - exBuy.shares * exBuy.price) none ∧
    (∃ m1 rest, selectMembersById (ProcessTradeHandler exStore0 exBuy).1 exBuy.leagueMemberId
        = m1 :: rest ∧
        m1.currentBalance = exMember.currentBalance - exBuy.shares * exBuy.price) ∧
    (∃ p ∈ (ProcessTradeHandler exStore0 exBuy).1.positions,
        p.leagueMemberId = exBuy.leagueMemberId ∧ p.marketId = exBuy.marketId ∧
        p.outcome = exBuy.outcome ∧ p.shares = exBuy.shares ∧ p.entryPrice = exBuy.price ∧
        p.currentPrice = exBuy.price ∧ p.unrealizedPnl = 0) :=
  buy_debits_balance_and_opens_position exStore0 exBuy exMember [] (by decide) (by decide)
    (by norm_num [exBuy]) (by norm_num [exBuy]) (by norm_num [exBuy, exMember])

/-- The two scenario trades, evaluated: the buy turns `exStore0` into `exStore1`. -/
theorem scenario_buy :
    ProcessTradeHandler exStore0 exBuy = (exStore1, Response.success 960 none) := by
  simp [ProcessTradeHandler, selectMembersById, exStore0, exMember, exBuy, applyPosition,
    insertPosition, insertTrade, tradeData, updateMemberAfterTrade, computeWinRate,
    selectSellTrades, exStore1, exMember1, exPosition]
  norm_num

/-- A sell is never stopped by the balance check. -/
theorem sell_not_rejected (req : TradeRequest) (b : ℚ) (hsell : req.tradeType = "sell") :
    ¬ (req.tradeType = "buy" ∧ req.shares * req.price > b) := by
  intro h
  have h1 := h.1
  rw [hsell] at h1
  exact absurd h1 (by decide)

/-- The position step of a sell that finds a position. -/
theorem applyPosition_sell_found (st : Store) (req : TradeRequest) (b : ℚ)
    (pos : Position) (ps : List Position) (hsell : req.tradeType = "sell")
    (hpos : selectPositionLimit1 st req.leagueMemberId req.marketId req.outcome = pos :: ps) :
    applyPosition st req b =
      if req.shares ≥ pos.shares then
        (deletePositionById st pos.id, some ((req.price - pos.entryPrice) * req.shares),
          b + req.shares * req.price)
      else
        (updatePositionShares st pos.id (pos.shares - req.shares)
            ((pos.currentPrice - pos.entryPrice) * (pos.shares - req.shares)),
          some ((req.price - pos.entryPrice) * req.shares), b + req.shares * req.price) := by
  have hnb : ¬ req.tradeType = "buy" := by rw [hsell]; decide
  unfold applyPosition
  simp only [if_neg hnb, if_pos hsell, hpos]

/-- The numbers of the C2 scenario: pnl 8 and balance 984. -/
theorem scenario_sell_numbers :
    (exSell.price - exPosition.entryPrice) * exSell.shares = 8 ∧
    exMember1.currentBalance + exSell.shares * exSell.price = 984 := by
  norm_num [exSell, exBuy, exPosition, exMember1, exMember]

/-- The positions table after an accepted request is the one the position step left. -/
theorem ProcessTradeHandler_accepted_positions (st : Store) (req : TradeRequest) (m : Member)
    (ms : List Member) (hm : selectMembersById st req.leagueMemberId = m :: ms)
    (hacc : ¬ (req.tradeType = "buy" ∧ req.shares * req.price > m.currentBalance)) :
    (ProcessTradeHandler st req).1.positions
      = (applyPosition st req m.currentBalance).1.positions := by
  rw [ProcessTradeHandler_accepted st req m ms hm hacc]
  rfl

/-- The limit-1 lookup after the partial-sell update returns the updated rows. -/
theorem selectPositionLimit1_updatePositionShares (st : Store) (i : Nat) (sh u : ℚ)
    (a b c : String) :
    selectPositionLimit1 (updatePositionShares st i sh u) a b c
      = (selectPositionLimit1 st a b c).map (fun p =>
          if p.id = i then { p with shares := sh, unrealizedPnl := u } else p) := by
  unfold selectPositionLimit1
  split
  · unfold updatePositionShares
    simp only [List.map_take]
    congr 1
    rw [List.filter_map]
    congr 1
    apply List.filter_congr
    intro x _
    simp only [Function.comp]
    split <;> rfl
  · rfl

/-- The position step of a sell that finds no position: nothing is written and the balance
is kept. -/
theorem applyPosition_sell_none (st : Store) (req : TradeRequest) (b : ℚ)
    (hsell : req.tradeType = "sell")
    (hnone : selectPositionLimit1 st req.leagueMemberId req.marketId req.outcome = []) :
    applyPosition st req b = (st, none, b) := by
  have hnb : ¬ req.tradeType = "buy" := by rw [hsell]; decide
  unfold applyPosition
  simp only [if_neg hnb, if_pos hsell, hnone]

/-! ## Selling against an existing position -/

/-- The lookup of a triple whose three values reach the store as written returns the first
row of the table with that triple. -/
theorem selectPositionLimit1_first (st : Store) (memberId marketId outcome : String)
    (pre post : List Position) (pos : Position)
    (hsafe : querySafe memberId = true ∧ querySafe marketId = true ∧ querySafe outcome = true)
    (hsplit : st.positions = pre ++ pos :: post)
    (hpre : ∀ p ∈ pre,
      ¬ (p.leagueMemberId = memberId ∧ p.marketId = marketId ∧ p.outcome = outcome))
    (hkey : pos.leagueMemberId = memberId ∧ pos.marketId = marketId ∧ pos.outcome = outcome) :
    selectPositionLimit1 st memberId marketId outcome = [pos] := by
  unfold selectPositionLimit1
  rw [if_pos hsafe, hsplit, List.filter_append]
  have h1 : pre.filter (fun p =>
      decide (p.leagueMemberId = memberId ∧ p.marketId = marketId ∧ p.outcome = outcome))
      = [] := by
    rw [List.filter_eq_nil_iff]
    intro p hp
    rw [decide_eq_true_eq]
    exact hpre p hp
  rw [h1, List.nil_append, List.filter_cons_of_pos (by rw [decide_eq_true_eq]; exact hkey)]
  rfl

/-- The lookup of a triple with a value that does not reach the store as written finds
nothing. -/
theorem selectPositionLimit1_unsafe (st : Store) (memberId marketId outcome : String)
    (h : ¬ (querySafe memberId = true ∧ querySafe marketId = true ∧
      querySafe outcome = true)) :
    selectPositionLimit1 st memberId marketId outcome = [] := by
  unfold selectPositionLimit1
  rw [if_neg h]

/-- In a table with distinct row ids no other row has the id of a given row. -/
theorem ids_ne_of_nodup (pre post : List Position) (pos : Position)
    (h : ((pre ++ pos :: post).map (fun p => p.id)).Nodup) :
    (∀ p ∈ pre, p.id ≠ pos.id) ∧ (∀ p ∈ post, p.id ≠ pos.id) := by
  rw [List.map_append, List.map_cons, List.nodup_append, List.nodup_cons] at h
  obtain ⟨_, ⟨h2, _⟩, h3⟩ := h
  constructor
  · intro p hp heq
    exact h3 (List.mem_map_of_mem (fun p => p.id) hp) (heq ▸ List.mem_cons_self _ _)
  · intro p hp heq
    exact h2 (heq ▸ List.mem_map_of_mem (fun p => p.id) hp)

/-- The buy for the outcome "a&b" is processed like the scenario buy and stores the outcome as
sent. -/
theorem scenario_buy_amp :
    ProcessTradeHandler exStore0 exBuyAmp = (exStoreAmp, Response.success 960 none) := by
  simp [ProcessTradeHandler, selectMembersById, exStore0, exMember, exBuyAmp, exBuy,
    applyPosition, insertPosition, insertTrade, tradeData, updateMemberAfterTrade,
    computeWinRate, selectSellTrades, exStoreAmp, exMember1, exPositionAmp, exPosition]
  norm_num

/-- What `ProcessTradeHandler` does with a sale for the outcome "a&b" on the ledger that holds
the position with that outcome: the lookup finds nothing, so the answer carries the unchanged
balance and a null pnl and the positions are untouched. -/
theorem sell_amp_finds_nothing (req : TradeRequest)
    (hreq : req = exSellAmp ∨ req = exSellAllAmp) :
    (ProcessTradeHandler exStoreAmp req).2 = Response.success 960 none ∧
    (ProcessTradeHandler exStoreAmp req).1.positions = [exPositionAmp] ∧
    (ProcessTradeHandler exStoreAmp req).1.trades
      = exStoreAmp.trades ++ [tradeData req none] := by
  have hty : req.tradeType = "sell" := by
    rcases hreq with h | h <;> rw [h] <;> decide
  have hid : req.leagueMemberId = "u1" := by
    rcases hreq with h | h <;> rw [h] <;> decide
  have hout : req.outcome = "a&b" := by
    rcases hreq with h | h <;> rw [h] <;> decide
  have hm : selectMembersById exStoreAmp req.leagueMemberId = [exMember1] := by
    rw [hid]; decide
  have hnone : selectPositionLimit1 exStoreAmp req.leagueMemberId req.marketId req.outcome
      = [] := by
    apply selectPositionLimit1_unsafe
    intro h
    rw [hout] at h
    exact absurd h.2.2 (by decide)
  have hacc := sell_not_rejected req exMember1.currentBalance hty
  have hap := applyPosition_sell_none exStoreAmp req exMember1.currentBalance hty hnone
  refine ⟨?_, ?_, ?_⟩
  · rw [ProcessTradeHandler_accepted exStoreAmp req exMember1 [] hm hacc, hap]
    simp [exMember1, exMember]
  · rw [ProcessTradeHandler_accepted_positions exStoreAmp req exMember1 [] hm hacc, hap]
    rfl
  · rw [ProcessTradeHandler_accepted exStoreAmp req exMember1 [] hm hacc, hap]
    rfl

/-- C2 as stated fails: on the ledger that holds a position of ("u1", "M1", "a&b") entered at
0.40, the sale of 40 of its shares at 0.60 is answered with a null pnl and the unchanged
balance 960, and the trade is recorded with a null pnl, where the claim has pnl 8 and the
balance 984. -/
theorem sell_pnl_and_balance_credit_counterexample :
    exPositionAmp ∈ exStoreAmp.positions ∧
    exPositionAmp.leagueMemberId = exSellAmp.leagueMemberId ∧
    exPositionAmp.marketId = exSellAmp.marketId ∧
    exPositionAmp.outcome = exSellAmp.outcome ∧
    exSellAmp.tradeType = "sell" ∧
    (ProcessTradeHandler exStoreAmp exSellAmp).2 = Response.success 960 none ∧
    (ProcessTradeHandler exStoreAmp exSellAmp).1.trades.map (fun t => (t.tradeType, t.pnl))
      = [("buy", none), ("sell", none)] ∧
    (exSellAmp.price - exPositionAmp.entryPrice) * exSellAmp.shares = 8 ∧
    (960 : ℚ) + exSellAmp.shares * exSellAmp.price = 984 := by
  obtain ⟨h1, _, h3⟩ := sell_amp_finds_nothing exSellAmp (Or.inl rfl)
  refine ⟨List.mem_cons_self _ _, by decide, by decide, by decide, by decide, h1,
    by rw [h3]; rfl, ?_, ?_⟩
  · norm_num [exSellAmp, exSell, exBuy, exPositionAmp, exPosition]
  · norm_num [exSellAmp, exSell, exBuy]

/-- C2, amended: for a sell by an existing member whose member id, market id and outcome
reach the store as written (none of the characters `&`, `#`, `%`, `+`, space or a control
character), against the first row of `positions` with that (member, market, outcome)
triple, whatever the number of shares sold (also more than are held): the pnl in the
response is `(sellPrice - entryPrice) * sharesSold`, exactly one trade is appended, of type
sell, carrying the request's shares, price and `shares * price` and that same pnl, and the
member's balance is the old balance plus `sharesSold * sellPrice`. -/
theorem sell_pnl_and_balance_credit (st : Store) (req : TradeRequest)
    (m : Member) (ms : List Member) (pre post : List Position) (pos : Position)
    (hm : selectMembersById st req.leagueMemberId = m :: ms)
    (hsell : req.tradeType = "sell")
    (hsafe : querySafe req.leagueMemberId = true ∧ querySafe req.marketId = true ∧
      querySafe req.outcome = true)
    (hsplit : st.positions = pre ++ pos :: post)
    (hpre : ∀ p ∈ pre, ¬ (p.leagueMemberId = req.leagueMemberId ∧
      p.marketId = req.marketId ∧ p.outcome = req.outcome))
    (hkey : pos.leagueMemberId = req.leagueMemberId ∧ pos.marketId = req.marketId ∧
      pos.outcome = req.outcome) :
    (ProcessTradeHandler st req).2
        = Response.success (m.currentBalance + req.shares * req.price)
            (some ((req.price - pos.entryPrice) * req.shares)) ∧
    (∃ t, (ProcessTradeHandler st req).1.trades = st.trades ++ [t] ∧
        t.leagueMemberId = req.leagueMemberId ∧ t.marketId = req.marketId ∧
        t.tradeType = "sell" ∧ t.outcome = req.outcome ∧ t.shares = req.shares ∧
        t.price = req.price ∧ t.totalValue = req.shares * req.price ∧
        t.pnl = some ((req.price - pos.entryPrice) * req.shares)) ∧
    (∃ m1 rest, selectMembersById (ProcessTradeHandler st req).1 req.leagueMemberId
        = m1 :: rest ∧ m1.currentBalance = m.currentBalance + req.shares * req.price) := by
  have hpos := selectPositionLimit1_first st req.leagueMemberId req.marketId req.outcome
    pre post pos hsafe hsplit hpre hkey
  have hacc := sell_not_rejected req m.currentBalance hsell
  have hap := applyPosition_sell_found st req m.currentBalance pos [] hsell hpos
  have h1 : (applyPosition st req m.currentBalance).2.1
      = some ((req.price - pos.entryPrice) * req.shares) := by
    rw [hap]; split <;> rfl
  have h2 : (applyPosition st req m.currentBalance).2.2
      = m.currentBalance + req.shares * req.price := by
    rw [hap]; split <;> rfl
  refine ⟨?_, ?_, ?_⟩
  · rw [ProcessTradeHandler_accepted st req m ms hm hacc, h1, h2]
  · rw [ProcessTradeHandler_accepted st req m ms hm hacc, h1]
    refine ⟨tradeData req (some ((req.price - pos.entryPrice) * req.shares)),
      ?_, rfl, rfl, hsell, rfl, rfl, rfl, rfl, rfl⟩
    simp only [updateMemberAfterTrade, insertTrade, applyPosition_trades]
  · rw [ProcessTradeHandler_accepted_members st req m ms hm hacc, h2]
    exact ⟨_, _, rfl, rfl⟩

/-- The position of the other member does not carry the triple of the scenario requests. -/
theorem exPositionOther_other (p : Position) (hp : p ∈ [exPositionOther]) :
    ¬ (p.leagueMemberId = "u1" ∧ p.marketId = "M1" ∧ p.outcome = "yes") := by
  rw [List.mem_singleton] at hp
  rw [hp]
  decide

/-- C2 amended, on the scenario: entry price 0.40, sell 40 at 0.60 from balance 960, with
the position of another member standing first in the table. -/
theorem sell_pnl_and_balance_credit_witness :
    (ProcessTradeHandler exStoreMixed exSell).2
        = Response.success (exMember1.currentBalance + exSell.shares * exSell.price)
            (some ((exSell.price - exPosition.entryPrice) * exSell.shares)) ∧
    (∃ t, (ProcessTradeHandler exStoreMixed exSell).1.trades = exStoreMixed.trades ++ [t] ∧
        t.leagueMemberId = exSell.leagueMemberId ∧ t.marketId = exSell.marketId ∧
        t.tradeType = "sell" ∧ t.outcome = exSell.outcome ∧ t.shares = exSell.shares ∧
        t.price = exSell.price ∧ t.totalValue = exSell.shares * exSell.price ∧
        t.pnl = some ((exSell.price - exPosition.entryPrice) * exSell.shares)) ∧
    (∃ m1 rest, selectMembersById (ProcessTradeHandler exStoreMixed exSell).1
          exSell.leagueMemberId = m1 :: rest ∧
        m1.currentBalance = exMember1.currentBalance + exSell.shares * exSell.price) :=
  sell_pnl_and_balance_credit exStoreMixed exSell exMember1 [] [exPositionOther] []
    exPosition (by decide) (by decide) (by decide) rfl exPositionOther_other (by decide)

/-- C3 as stated fails: on the ledger that holds a position of ("u1", "M1", "a&b") with 100
shares, the sale of 40 of them leaves the position with its 100 shares, where the claim has
60. -/
theorem partial_sell_reduces_position_counterexample :
    exPositionAmp ∈ exStoreAmp.positions ∧
    exPositionAmp.leagueMemberId = exSellAmp.leagueMemberId ∧
    exPositionAmp.marketId = exSellAmp.marketId ∧
    exPositionAmp.outcome = exSellAmp.outcome ∧
    exSellAmp.tradeType = "sell" ∧
    exSellAmp.shares < exPositionAmp.shares ∧
    (ProcessTradeHandler exStoreAmp exSellAmp).1.positions = [exPositionAmp] ∧
    exPositionAmp.shares = 100 := by
  obtain ⟨_, h2, _⟩ := sell_amp_finds_nothing exSellAmp (Or.inl rfl)
  refine ⟨List.mem_cons_self _ _, by decide, by decide, by decide, by decide, ?_, h2, rfl⟩
  norm_num [exSellAmp, exSell, exBuy, exPositionAmp, exPosition]

/-- C3, amended: for a sell by an existing member whose member id, market id and outcome
reach the store as written, of fewer shares than the first row of `positions` with that
(member, market, outcome) triple holds: afterwards the table is the old one with the rows
of that row's id rewritten to `shares = sharesHeld - sharesSold` and
`unrealizedPnl = (currentPrice - entryPrice) * remaining`, computed with the position's own
`currentPrice`; the position is in the table with exactly these two columns changed
(`entryPrice`, `currentPrice` and all others as before); and when the row ids of the table
are distinct no other row has changed. -/
theorem partial_sell_reduces_position (st : Store) (req : TradeRequest)
    (m : Member) (ms : List Member) (pre post : List Position) (pos : Position)
    (hm : selectMembersById st req.leagueMemberId = m :: ms)
    (hsell : req.tradeType = "sell")
    (hsafe : querySafe req.leagueMemberId = true ∧ querySafe req.marketId = true ∧
      querySafe req.outcome = true)
    (hsplit : st.positions = pre ++ pos :: post)
    (hpre : ∀ p ∈ pre, ¬ (p.leagueMemberId = req.leagueMemberId ∧
      p.marketId = req.marketId ∧ p.outcome = req.outcome))
    (hkey : pos.leagueMemberId = req.leagueMemberId ∧ pos.marketId = req.marketId ∧
      pos.outcome = req.outcome)
    (hlt : req.shares < pos.shares) :
    (ProcessTradeHandler st req).1.positions
      = st.positions.map (fun p =>
          if p.id = pos.id then
            { p with
              shares := pos.shares - req.shares
              unrealizedPnl := (pos.currentPrice - pos.entryPrice) * (pos.shares - req.shares) }
          else p) ∧
    { pos with
        shares := pos.shares - req.shares
        unrealizedPnl := (pos.currentPrice - pos.entryPrice) * (pos.shares - req.shares) }
      ∈ (ProcessTradeHandler st req).1.positions ∧
    ((st.positions.map (fun p => p.id)).Nodup →
      (ProcessTradeHandler st req).1.positions
        = pre ++ { pos with
            shares := pos.shares - req.shares
            unrealizedPnl := (pos.currentPrice - pos.entryPrice) * (pos.shares - req.shares) }
          :: post) := by
  have hpos := selectPositionLimit1_first st req.leagueMemberId req.marketId req.outcome
    pre post pos hsafe hsplit hpre hkey
  have hacc := sell_not_rejected req m.currentBalance hsell
  have hap := applyPosition_sell_found st req m.currentBalance pos [] hsell hpos
  rw [if_neg (not_le.mpr hlt)] at hap
  have hall : (ProcessTradeHandler st req).1.positions
      = st.positions.map (fun p =>
          if p.id = pos.id then
            { p with
              shares := pos.shares - req.shares
              unrealizedPnl := (pos.currentPrice - pos.entryPrice) * (pos.shares - req.shares) }
          else p) := by
    rw [ProcessTradeHandler_accepted_positions st req m ms hm hacc, hap]
    rfl
  refine ⟨hall, ?_, ?_⟩
  · rw [hall, hsplit, List.map_append, List.map_cons, if_pos rfl]
    exact List.mem_append_right _ (List.mem_cons_self _ _)
  · intro hnd
    rw [hsplit] at hnd
    obtain ⟨h1, h2⟩ := ids_ne_of_nodup pre post pos hnd
    rw [hall, hsplit, List.map_append, List.map_cons, if_pos rfl]
    congr 1
    · conv_rhs => rw [← List.map_id pre]
      exact List.map_congr_left (fun p hp => if_neg (h1 p hp))
    · congr 1
      conv_rhs => rw [← List.map_id post]
      exact List.map_congr_left (fun p hp => if_neg (h2 p hp))

/-- C3 amended, on the scenario: selling 40 of the 100 shares leaves 60, and the position of
the other member, which stands first in the table, is untouched. -/
theorem partial_sell_reduces_position_witness :
    (ProcessTradeHandler exStoreMixed exSell).1.positions
      = exStoreMixed.positions.map (fun p =>
          if p.id = exPosition.id then
            { p with
              shares := exPosition.shares - exSell.shares
              unrealizedPnl := (exPosition.currentPrice - exPosition.entryPrice)
                * (exPosition.shares - exSell.shares) }
          else p) ∧
    { exPosition with
        shares := exPosition.shares - exSell.shares
        unrealizedPnl := (exPosition.currentPrice - exPosition.entryPrice)
          * (exPosition.shares - exSell.shares) }
      ∈ (ProcessTradeHandler exStoreMixed exSell).1.positions ∧
    ((exStoreMixed.positions.map (fun p => p.id)).Nodup →
      (ProcessTradeHandler exStoreMixed exSell).1.positions
        = [exPositionOther] ++ { exPosition with
            shares := exPosition.shares - exSell.shares
            unrealizedPnl := (exPosition.currentPrice - exPosition.entryPrice)
              * (exPosition.shares - exSell.shares) }
          :: []) :=
  partial_sell_reduces_position exStoreMixed exSell exMember1 [] [exPositionOther] []
    exPosition (by decide) (by decide) (by decide) rfl exPositionOther_other (by decide)
    (by norm_num [exSell, exBuy, exPosition])

/-- C4 as stated fails: on the ledger that holds a position of ("u1", "M1", "a&b") with 100
shares, the sale of all 100 shares leaves the position in the table. -/
theorem full_sell_deletes_position_counterexample :
    exPositionAmp ∈ exStoreAmp.positions ∧
    exPositionAmp.leagueMemberId = exSellAllAmp.leagueMemberId ∧
    exPositionAmp.marketId = exSellAllAmp.marketId ∧
    exPositionAmp.outcome = exSellAllAmp.outcome ∧
    exSellAllAmp.tradeType = "sell" ∧
    exSellAllAmp.shares ≥ exPositionAmp.shares ∧
    exPositionAmp ∈ (ProcessTradeHandler exStoreAmp exSellAllAmp).1.positions := by
  obtain ⟨_, h2, _⟩ := sell_amp_finds_nothing exSellAllAmp (Or.inr rfl)
  refine ⟨List.mem_cons_self _ _, by decide, by decide, by decide, by decide, ?_, ?_⟩
  · norm_num [exSellAllAmp, exSellAll, exBuy, exPositionAmp, exPosition]
  · rw [h2]
    exact List.mem_cons_self _ _

/-- C4, amended: for a sell by an existing member whose member id, market id and outcome
reach the store as written, of at least as many shares as the first row of `positions` with
that (member, market, outcome) triple holds: afterwards the table is the old one without the
rows of that row's id, so no row has its id and the position is not in the table; and when
the row ids of the table are distinct every other row is still there, in order. -/
theorem full_sell_deletes_position (st : Store) (req : TradeRequest)
    (m : Member) (ms : List Member) (pre post : List Position) (pos : Position)
    (hm : selectMembersById st req.leagueMemberId = m :: ms)
    (hsell : req.tradeType = "sell")
    (hsafe : querySafe req.leagueMemberId = true ∧ querySafe req.marketId = true ∧
      querySafe req.outcome = true)
    (hsplit : st.positions = pre ++ pos :: post)
    (hpre : ∀ p ∈ pre, ¬ (p.leagueMemberId = req.leagueMemberId ∧
      p.marketId = req.marketId ∧ p.outcome = req.outcome))
    (hkey : pos.leagueMemberId = req.leagueMemberId ∧ pos.marketId = req.marketId ∧
      pos.outcome = req.outcome)
    (hge : req.shares ≥ pos.shares) :
    (ProcessTradeHandler st req).1.positions
      = st.positions.filter (fun p => ¬ p.id = pos.id) ∧
    (∀ p ∈ (ProcessTradeHandler st req).1.positions, p.id ≠ pos.id) ∧
    pos ∉ (ProcessTradeHandler st req).1.positions ∧
    ((st.positions.map (fun p => p.id)).Nodup →
      (ProcessTradeHandler st req).1.positions = pre ++ post) := by
  have hpos := selectPositionLimit1_first st req.leagueMemberId req.marketId req.outcome
    pre post pos hsafe hsplit hpre hkey
  have hacc := sell_not_rejected req m.currentBalance hsell
  have hap := applyPosition_sell_found st req m.currentBalance pos [] hsell hpos
  rw [if_pos hge] at hap
  have hall : (ProcessTradeHandler st req).1.positions
      = st.positions.filter (fun p => ¬ p.id = pos.id) := by
    rw [ProcessTradeHandler_accepted_positions st req m ms hm hacc, hap]
    rfl
  have hnone : ∀ p ∈ (ProcessTradeHandler st req).1.positions, p.id ≠ pos.id := by
    intro p hp
    rw [hall] at hp
    simp only [List.mem_filter, decide_eq_true_eq] at hp
    exact hp.2
  refine ⟨hall, hnone, fun h => hnone pos h rfl, ?_⟩
  intro hnd
  rw [hsplit] at hnd
  obtain ⟨h1, h2⟩ := ids_ne_of_nodup pre post pos hnd
  rw [hall, hsplit, List.filter_append, List.filter_cons_of_neg (by simp)]
  congr 1
  · rw [List.filter_eq_self]
    intro p hp
    exact decide_eq_true (h1 p hp)
  · rw [List.filter_eq_self]
    intro p hp
    exact decide_eq_true (h2 p hp)

/-- C4 amended, on the scenario ledger: selling all 100 shares removes the position and
leaves the position of the other member, which stands first in the table. -/
theorem full_sell_deletes_position_witness :
    (ProcessTradeHandler exStoreMixed exSellAll).1.positions
      = exStoreMixed.positions.filter (fun p => ¬ p.id = exPosition.id) ∧
    (∀ p ∈ (ProcessTradeHandler exStoreMixed exSellAll).1.positions, p.id ≠ exPosition.id) ∧
    exPosition ∉ (ProcessTradeHandler exStoreMixed exSellAll).1.positions ∧
    ((exStoreMixed.positions.map (fun p => p.id)).Nodup →
      (ProcessTradeHandler exStoreMixed exSellAll).1.positions = [exPositionOther] ++ []) :=
  full_sell_deletes_position exStoreMixed exSellAll exMember1 [] [exPositionOther] []
    exPosition (by decide) (by decide) (by decide) rfl exPositionOther_other (by decide)
    (by norm_num [exSellAll, exBuy, exPosition])

/-- C5 as stated fails: on the ledger `exStore0`, which holds no position, the sell of 40
shares at 0.60 is accepted but the member's balance afterwards is not
`1000 + 40 * 0.60`. -/
theorem sell_without_position_counterexample :
    selectMembersById exStore0 exSell.leagueMemberId = [exMember] ∧
    exSell.tradeType = "sell" ∧
    selectPositionLimit1 exStore0 exSell.leagueMemberId exSell.marketId exSell.outcome = [] ∧
    ¬ (∃ m1 rest, selectMembersById (ProcessTradeHandler exStore0 exSell).1
          exSell.leagueMemberId = m1 :: rest ∧
        m1.currentBalance = exMember.currentBalance + exSell.shares * exSell.price) := by
  refine ⟨by decide, by decide, by decide, ?_⟩
  rw [ProcessTradeHandler_accepted_members exStore0 exSell exMember [] (by decide)
    (sell_not_rejected exSell _ (by decide))]
  rintro ⟨m1, rest, h, hb⟩
  simp only [List.map_cons, List.map_nil, List.cons.injEq] at h
  rw [← h.1, applyPosition_sell_none exStore0 exSell _ (by decide) (by decide)] at hb
  norm_num [exSell, exBuy, exMember] at hb

/-- C5, amended: a sell by an existing member for which the lookup finds no position is not
an error; it is answered with the unchanged balance and a null pnl, the trade is recorded with
a null pnl, the positions are untouched, and on the member row `currentBalance` and `totalPnl`
are unchanged while `totalTrades` grows by one. -/
theorem sell_without_position_no_credit (st : Store) (req : TradeRequest)
    (m : Member) (ms : List Member)
    (hm : selectMembersById st req.leagueMemberId = m :: ms)
    (hsell : req.tradeType = "sell")
    (hnone : selectPositionLimit1 st req.leagueMemberId req.marketId req.outcome = []) :
    (ProcessTradeHandler st req).2 = Response.success m.currentBalance none ∧
    (ProcessTradeHandler st req).1.trades = st.trades ++ [tradeData req none] ∧
    (ProcessTradeHandler st req).1.positions = st.positions ∧
    (∃ m1 rest, selectMembersById (ProcessTradeHandler st req).1 req.leagueMemberId
        = m1 :: rest ∧ m1.currentBalance = m.currentBalance ∧ m1.totalPnl = m.totalPnl ∧
        m1.totalTrades = m.totalTrades + 1) := by
  have hacc := sell_not_rejected req m.currentBalance hsell
  have hap := applyPosition_sell_none st req m.currentBalance hsell hnone
  refine ⟨?_, ?_, ?_, ?_⟩
  · rw [ProcessTradeHandler_accepted st req m ms hm hacc, hap]
  · rw [ProcessTradeHandler_accepted st req m ms hm hacc, hap]
    rfl
  · rw [ProcessTradeHandler_accepted_positions st req m ms hm hacc, hap]
  · rw [ProcessTradeHandler_accepted_members st req m ms hm hacc, hap]
    exact ⟨_, _, rfl, rfl, rfl, rfl⟩

/-- C5 amended, on the ledger without positions. -/
theorem sell_without_position_no_credit_witness :
    (ProcessTradeHandler exStore0 exSell).2 = Response.success exMember.currentBalance none ∧
    (ProcessTradeHandler exStore0 exSell).1.trades
        = exStore0.trades ++ [tradeData exSell none] ∧
    (ProcessTradeHandler exStore0 exSell).1.positions = exStore0.positions ∧
    (∃ m1 rest, selectMembersById (ProcessTradeHandler exStore0 exSell).1
          exSell.leagueMemberId = m1 :: rest ∧
        m1.currentBalance = exMember.currentBalance ∧ m1.totalPnl = exMember.totalPnl ∧
        m1.totalTrades = exMember.totalTrades + 1) :=
  sell_without_position_no_credit exStore0 exSell exMember [] (by decide) (by decide)
    (by decide)

/-! ## Rejected requests -/

/-- C6: for an existing member, a buy is answered with the 400 "Insufficient balance" error
exactly when `shares * price > currentBalance`, and then the store (members, positions,
trades) is the store before. -/
theorem buy_rejected_iff_insufficient_balance (st : Store) (req : TradeRequest)
    (m : Member) (ms : List Member)
    (hm : selectMembersById st req.leagueMemberId = m :: ms)
    (hbuy : req.tradeType = "buy") :
    ((ProcessTradeHandler st req).2 = Response.error 400 "Insufficient balance"
        ↔ req.shares * req.price > m.currentBalance) ∧
    (req.shares * req.price > m.currentBalance → (ProcessTradeHandler st req).1 = st) := by
  by_cases h : req.shares * req.price > m.currentBalance
  · have hrej : ProcessTradeHandler st req = (st, Response.error 400 "Insufficient balance") := by
      unfold ProcessTradeHandler
      simp only [hm]
      rw [if_pos ⟨hbuy, h⟩]
    rw [hrej]
    exact ⟨⟨fun _ => h, fun _ => rfl⟩, fun _ => rfl⟩
  · have hacc : ¬ (req.tradeType = "buy" ∧ req.shares * req.price > m.currentBalance) :=
      fun hh => h hh.2
    rw [ProcessTradeHandler_accepted st req m ms hm hacc]
    refine ⟨⟨fun hh => ?_, fun hh => absurd hh h⟩, fun hh => absurd hh h⟩
    exact absurd hh (by simp)

/-- C6 on the ledger with balance 1000 and a buy worth 1200. -/
theorem buy_rejected_iff_insufficient_balance_witness :
    ((ProcessTradeHandler exStore0 exBigBuy).2 = Response.error 400 "Insufficient balance"
        ↔ exBigBuy.shares * exBigBuy.price > exMember.currentBalance) ∧
    (exBigBuy.shares * exBigBuy.price > exMember.currentBalance →
        (ProcessTradeHandler exStore0 exBigBuy).1 = exStore0) :=
  buy_rejected_iff_insufficient_balance exStore0 exBigBuy exMember [] (by decide) (by decide)

/-- The buy worth 1200 against the balance of 1000 is rejected and the ledger is kept. -/
theorem scenario_big_buy :
    ProcessTradeHandler exStore0 exBigBuy
      = (exStore0, Response.error 400 "Insufficient balance") := by
  have h : exBigBuy.tradeType = "buy" ∧
      exBigBuy.shares * exBigBuy.price > exMember.currentBalance := by
    refine ⟨by decide, ?_⟩
    norm_num [exBigBuy, exBuy, exMember]
  unfold ProcessTradeHandler
  simp only [show selectMembersById exStore0 exBigBuy.leagueMemberId = [exMember] by decide]
  rw [if_pos h]

/-- Every error answer of `ProcessTradeHandler` leaves the store as it was. -/
theorem ProcessTradeHandler_error_unchanged (st : Store) (req : TradeRequest)
    (code : Nat) (msg : String)
    (h : (ProcessTradeHandler st req).2 = Response.error code msg) :
    (ProcessTradeHandler st req).1 = st := by
  cases hm : selectMembersById st req.leagueMemberId with
  | nil =>
    unfold ProcessTradeHandler
    simp only [hm]
  | cons member rest =>
    by_cases hacc : req.tradeType = "buy" ∧ req.shares * req.price > member.currentBalance
    · unfold ProcessTradeHandler
      simp only [hm]
      rw [if_pos hacc]
    · rw [ProcessTradeHandler_accepted st req member rest hm hacc] at h
      exact absurd h (by simp)

/-- C7 as stated fails: a buy of -5 shares at price 1 against the balance 1000 is not
rejected; it is answered with success and the new balance 1005, and the store has changed. -/
theorem nonpositive_shares_counterexample :
    exBadBuy.shares ≤ 0 ∧
    (ProcessTradeHandler exStore0 exBadBuy).2 = Response.success 1005 none ∧
    (ProcessTradeHandler exStore0 exBadBuy).1 ≠ exStore0 := by
  have hacc : ¬ (exBadBuy.tradeType = "buy" ∧
      exBadBuy.shares * exBadBuy.price > exMember.currentBalance) := by
    norm_num [exBadBuy, exBuy, exMember]
  have hap : applyPosition exStore0 exBadBuy exMember.currentBalance
      = (insertPosition exStore0 exBadBuy, none, 1005) := by
    unfold applyPosition
    simp only [show exBadBuy.tradeType = "buy" by decide, if_true]
    norm_num [exBadBuy, exBuy, exMember]
  refine ⟨by norm_num [exBadBuy], ?_, ?_⟩
  · rw [ProcessTradeHandler_accepted exStore0 exBadBuy exMember [] (by decide) hacc, hap]
  · intro h
    have hn := congrArg Store.nextPositionId h
    rw [ProcessTradeHandler_accepted exStore0 exBadBuy exMember [] (by decide) hacc, hap] at hn
    exact absurd hn (by decide)

/-- C7, amended: `ProcessTradeHandler` does not look at the sign of `shares` or `price`.  For
an existing member, a request with `shares ≤ 0` or `price ≤ 0` gets an error answer only as a
buy with `shares * price > currentBalance` (400 "Insufficient balance"), and then the store is
unchanged; in every other case it is processed: the answer is a success, its trade is
appended and the member's `totalTrades` grows by one. -/
theorem nonpositive_trade_not_validated (st : Store) (req : TradeRequest)
    (m : Member) (ms : List Member)
    (hm : selectMembersById st req.leagueMemberId = m :: ms)
    (hbad : req.shares ≤ 0 ∨ req.price ≤ 0) :
    (∀ code msg, (ProcessTradeHandler st req).2 = Response.error code msg →
        (code = 400 ∧ msg = "Insufficient balance" ∧ req.tradeType = "buy" ∧
          req.shares * req.price > m.currentBalance) ∧
        (ProcessTradeHandler st req).1 = st) ∧
    (¬ (req.tradeType = "buy" ∧ req.shares * req.price > m.currentBalance) →
        ∃ newBalance pnl,
          (ProcessTradeHandler st req).2 = Response.success newBalance pnl ∧
          (ProcessTradeHandler st req).1.trades = st.trades ++ [tradeData req pnl] ∧
          ∃ m1 rest, selectMembersById (ProcessTradeHandler st req).1 req.leagueMemberId
              = m1 :: rest ∧ m1.totalTrades = m.totalTrades + 1) := by
  constructor
  · intro code msg h
    refine ⟨?_, ProcessTradeHandler_error_unchanged st req code msg h⟩
    by_cases hacc : req.tradeType = "buy" ∧ req.shares * req.price > m.currentBalance
    · unfold ProcessTradeHandler at h
      simp only [hm] at h
      rw [if_pos hacc] at h
      simp only [Response.error.injEq] at h
      exact ⟨h.1.symm, h.2.symm, hacc.1, hacc.2⟩
    · rw [ProcessTradeHandler_accepted st req m ms hm hacc] at h
      exact absurd h (by simp)
  · intro hacc
    refine ⟨(applyPosition st req m.currentBalance).2.2,
      (applyPosition st req m.currentBalance).2.1, ?_, ?_, ?_⟩
    · rw [ProcessTradeHandler_accepted st req m ms hm hacc]
    · rw [ProcessTradeHandler_accepted st req m ms hm hacc]
      simp only [updateMemberAfterTrade, insertTrade, applyPosition_trades]
    · rw [ProcessTradeHandler_accepted_members st req m ms hm hacc]
      exact ⟨_, _, rfl, rfl⟩

/-- C7 amended, on the buy of -5 shares. -/
theorem nonpositive_trade_not_validated_witness :
    (∀ code msg, (ProcessTradeHandler exStore0 exBadBuy).2 = Response.error code msg →
        (code = 400 ∧ msg = "Insufficient balance" ∧ exBadBuy.tradeType = "buy" ∧
          exBadBuy.shares * exBadBuy.price > exMember.currentBalance) ∧
        (ProcessTradeHandler exStore0 exBadBuy).1 = exStore0) ∧
    (¬ (exBadBuy.tradeType = "buy" ∧
          exBadBuy.shares * exBadBuy.price > exMember.currentBalance) →
        ∃ newBalance pnl,
          (ProcessTradeHandler exStore0 exBadBuy).2 = Response.success newBalance pnl ∧
          (ProcessTradeHandler exStore0 exBadBuy).1.trades
            = exStore0.trades ++ [tradeData exBadBuy pnl] ∧
          ∃ m1 rest, selectMembersById (ProcessTradeHandler exStore0 exBadBuy).1
              exBadBuy.leagueMemberId = m1 :: rest ∧
            m1.totalTrades = exMember.totalTrades + 1) :=
  nonpositive_trade_not_validated exStore0 exBadBuy exMember [] (by decide)
    (Or.inl (by norm_num [exBadBuy]))

/-! ## Settlement -/

theorem char_ofNat_toNat_of_lt (n : Nat) (h : n < 55296) : (Char.ofNat n).toNat = n := by
  have hv : n.isValidChar := Or.inl h
  unfold Char.ofNat
  rw [dif_pos hv]
  unfold Char.ofNatAux Char.toNat
  simp only [UInt32.toNat]
  show (BitVec.ofNatLt n _).toNat = n
  simp

theorem char_toLower_toLower (c : Char) : c.toLower.toLower = c.toLower := by
  unfold Char.toLower
  simp only
  by_cases h : c.toNat ≥ 65 ∧ c.toNat ≤ 90
  · rw [if_pos h]
    have hv : (Char.ofNat (c.toNat + 32)).toNat = c.toNat + 32 :=
      char_ofNat_toNat_of_lt _ (by omega)
    rw [if_neg]
    rw [hv]
    omega
  · rw [if_neg h, if_neg h]

/-- Lower-casing is idempotent. -/
theorem toLower_toLower (s : String) : asciiLower (asciiLower s) = asciiLower s := by
  unfold asciiLower
  simp only [List.map_map]
  congr 1
  apply List.map_congr_left
  intro c _
  exact char_toLower_toLower c

/-- The loop of `findWinningOutcome` returns the lower-cased outcome of the first token
flagged winner. -/
theorem findWinningOutcomeIn_eq (tokens : List Token) :
    findWinningOutcomeIn lower tokens =
      match tokens.find? (fun t => t.winner) with
      | some tok => lower tok.outcome
      | none => "" := by
  induction tokens with
  | nil => rfl
  | cons t rest ih =>
    unfold findWinningOutcomeIn
    by_cases hw : t.winner = true
    · simp only [hw, if_true, List.find?_cons_of_pos]
    · rw [if_neg hw, ih, List.find?_cons_of_neg _ hw]

/-- The winning outcome handed to `settlePosition` is already in lower case. -/
theorem toLower_findWinningOutcome (md : MarketData) :
    asciiLower (findWinningOutcome asciiLower md) = findWinningOutcome asciiLower md := by
  unfold findWinningOutcome
  rw [findWinningOutcomeIn_eq]
  split
  · exact toLower_toLower _
  · rfl

/-- What `settlePosition` does when the member row is found. -/
theorem settlePosition_found (st : Store) (pos : Position) (marketID w : String)
    (m : Member) (ms : List Member)
    (hm : selectMembersById st pos.leagueMemberId = m :: ms) :
    settlePosition lower st pos marketID w =
      deletePositionById
        (updateMemberAfterSettle
          (insertTrade st (settleTrade lower pos marketID (if lower pos.outcome = w then 1 else 0)))
          pos.leagueMemberId
          (m.currentBalance + pos.shares * (if lower pos.outcome = w then 1 else 0))
          (m.totalPnl + (pos.shares * (if lower pos.outcome = w then 1 else 0)
            - pos.entryPrice * pos.shares))
          (m.totalTrades + 1))
        pos.id := by
  unfold settlePosition
  simp only [hm]

/-- C8: for a closed market whose first token flagged winner has a non-empty lower-cased
outcome, and a position whose member row exists, `settlePosition` (called with the winning
outcome `findWinningOutcome` returns) pays 1 per share if the held outcome and the outcome of
that token are equal after `strings.ToLower` (`lower`), that is equal up to letter case, and
0 otherwise; with `totalPayout = shares * payoutPerShare` and
`finalPnl = totalPayout - entryPrice * shares` the member's balance grows by `totalPayout`,
`totalPnl` by `finalPnl` and `totalTrades` by one, exactly one trade is appended, of type
settle with `price = payoutPerShare` and `pnl = finalPnl`, and no row with the position's id
is left. -/
theorem settlePosition_pays_and_closes (st : Store) (pos : Position) (marketID : String)
    (md : MarketData) (tok : Token) (m : Member) (ms : List Member)
    (hc : md.closed = true)
    (htok : md.tokens.find? (fun t => t.winner) = some tok)
    (hw : lower tok.outcome ≠ "")
    (hm : selectMembersById st pos.leagueMemberId = m :: ms) :
    findWinningOutcome lower md = lower tok.outcome ∧
    ∃ payoutPerShare totalPayout finalPnl : ℚ,
      payoutPerShare = (if lower pos.outcome = lower tok.outcome then 1 else 0) ∧
      totalPayout = pos.shares * payoutPerShare ∧
      finalPnl = totalPayout - pos.entryPrice * pos.shares ∧
      (∃ m1 rest,
        selectMembersById (settlePosition lower st pos marketID (findWinningOutcome lower md))
          pos.leagueMemberId = m1 :: rest ∧
        m1.currentBalance = m.currentBalance + totalPayout ∧
        m1.totalPnl = m.totalPnl + finalPnl ∧
        m1.totalTrades = m.totalTrades + 1) ∧
      (∃ t, (settlePosition lower st pos marketID (findWinningOutcome lower md)).trades
          = st.trades ++ [t] ∧
        t.leagueMemberId = pos.leagueMemberId ∧ t.marketId = marketID ∧
        t.tradeType = "settle" ∧ t.outcome = lower pos.outcome ∧
        t.shares = pos.shares ∧ t.price = payoutPerShare ∧ t.totalValue = totalPayout ∧
        t.pnl = some finalPnl) ∧
      (∀ p ∈ (settlePosition lower st pos marketID (findWinningOutcome lower md)).positions,
        p.id ≠ pos.id) := by
  have hwin : findWinningOutcome lower md = lower tok.outcome := by
    unfold findWinningOutcome
    rw [findWinningOutcomeIn_eq, htok]
  refine ⟨hwin, _, _, _, rfl, rfl, rfl, ?_, ?_, ?_⟩
  · rw [hwin, settlePosition_found st pos marketID _ m ms hm]
    have hsel : selectMembersById (insertTrade st (settleTrade lower pos marketID
        (if lower pos.outcome = lower tok.outcome then 1 else 0))) pos.leagueMemberId
        = m :: ms := by
      rw [← hm]; rfl
    have hdel : ∀ (s : Store) (i : Nat) (x : String),
        selectMembersById (deletePositionById s i) x = selectMembersById s x :=
      fun _ _ _ => rfl
    rw [hdel, selectMembersById_updateMemberAfterSettle, hsel]
    exact ⟨_, _, rfl, rfl, rfl, rfl⟩
  · rw [hwin, settlePosition_found st pos marketID _ m ms hm]
    exact ⟨_, rfl, rfl, rfl, rfl, rfl, rfl, rfl, rfl, rfl⟩
  · intro p hp
    rw [settlePosition_found st pos marketID _ m ms hm] at hp
    simp only [deletePositionById, List.mem_filter, decide_eq_true_eq] at hp
    exact hp.2

/-- The winning outcome of the scenario market, "Yes", is read as "yes". -/
theorem scenario_winner : findWinningOutcome asciiLower exMarket = "yes" := by decide

/-- C8, the scenario: 60 shares entered at 0.40 on a market won by "Yes", balance 984. -/
theorem settlePosition_pays_and_closes_witness :
    findWinningOutcome asciiLower exMarket = asciiLower "Yes" ∧
    ∃ payoutPerShare totalPayout finalPnl : ℚ,
      payoutPerShare = (if asciiLower exPosition2.outcome = asciiLower "Yes" then 1 else 0) ∧
      totalPayout = exPosition2.shares * payoutPerShare ∧
      finalPnl = totalPayout - exPosition2.entryPrice * exPosition2.shares ∧
      (∃ m1 rest,
        selectMembersById
          (settlePosition asciiLower exStore2 exPosition2 "M1"
            (findWinningOutcome asciiLower exMarket))
          exPosition2.leagueMemberId = m1 :: rest ∧
        m1.currentBalance = exMember2.currentBalance + totalPayout ∧
        m1.totalPnl = exMember2.totalPnl + finalPnl ∧
        m1.totalTrades = exMember2.totalTrades + 1) ∧
      (∃ t, (settlePosition asciiLower exStore2 exPosition2 "M1"
            (findWinningOutcome asciiLower exMarket)).trades
          = exStore2.trades ++ [t] ∧
        t.leagueMemberId = exPosition2.leagueMemberId ∧ t.marketId = "M1" ∧
        t.tradeType = "settle" ∧ t.outcome = asciiLower exPosition2.outcome ∧
        t.shares = exPosition2.shares ∧ t.price = payoutPerShare ∧
        t.totalValue = totalPayout ∧ t.pnl = some finalPnl) ∧
      (∀ p ∈ (settlePosition asciiLower exStore2 exPosition2 "M1"
            (findWinningOutcome asciiLower exMarket)).positions,
        p.id ≠ exPosition2.id) :=
  settlePosition_pays_and_closes exStore2 exPosition2 "M1" exMarket ⟨"Yes", true⟩ exMember2 []
    rfl (by decide) (by decide) (by decide)

/-- The scenario sale turns `exStore1` into `exStore2`. -/
theorem scenario_sell :
    ProcessTradeHandler exStore1 exSell = (exStore2, Response.success 984 (some 8)) := by
  simp [ProcessTradeHandler, selectMembersById, exStore1, exMember1, exMember, exSell, exBuy,
    applyPosition, selectPositionLimit1, show querySafe "u1" = true by decide,
    show querySafe "M1" = true by decide, show querySafe "yes" = true by decide,
    exPosition, updatePositionShares, insertTrade,
    tradeData, updateMemberAfterTrade, computeWinRate, selectSellTrades, pnlValue, exStore2,
    exMember2, exPosition2]
  norm_num
  decide

/-- The scenario settlement turns `exStore2` into `exStore3`: balance 1044, position gone. -/
theorem scenario_settle :
    settleResolvedMarkets asciiLower (fun _ => some exMarket) exStore2 = exStore3 := by
  have hids : marketIDs exStore2.positions = ["M1"] := by decide
  have hw : findWinningOutcome asciiLower exMarket = "yes" := by decide
  have hl : asciiLower "yes" = "yes" := by decide
  unfold settleResolvedMarkets
  simp only [hids, settleMarkets, List.foldl_cons, List.foldl_nil, settleMarket, hw]
  simp [exStore2, exMarket, settlePosition, hl, selectMembersById, exMember2, exMember,
    exPosition2, exPosition, insertTrade, updateMemberAfterSettle, deletePositionById,
    exStore3, settleTrade]
  norm_num

/-! ## The win rate -/

theorem pnlValue_pos_iff (t : Trade) : pnlValue t > 0 ↔ hasPositivePnl t = true := by
  unfold pnlValue hasPositivePnl
  cases t.pnl with
  | none => simp
  | some v => simp

/-- The win rate the handler computes from the selected sell trades is the ratio
`sellWinRate` over the trades table. -/
theorem computeWinRate_selectSellTrades (st : Store) (memberId : String) :
    computeWinRate (selectSellTrades st memberId) = sellWinRate st.trades memberId := by
  unfold computeWinRate sellWinRate selectSellTrades
  simp only
  have hf : ∀ l : List Trade, l.filter (fun t => decide (pnlValue t > 0))
      = l.filter hasPositivePnl := by
    intro l
    apply List.filter_congr
    intro t _
    by_cases h : hasPositivePnl t = true
    · rw [h]; exact decide_eq_true ((pnlValue_pos_iff t).mpr h)
    · have h2 : ¬ pnlValue t > 0 := fun hh => h ((pnlValue_pos_iff t).mp hh)
      rw [Bool.not_eq_true] at h
      rw [h]; exact decide_eq_false h2
  rw [hf]
  by_cases h0 : (st.trades.filter
      (fun t => decide (t.leagueMemberId = memberId ∧ t.tradeType = "sell"))).length = 0
  · rw [if_pos h0, if_neg (by omega)]
  · rw [if_neg h0, if_pos (by omega)]
    ring

/-- C9 as stated fails: on a ledger whose history holds a settle trade with pnl 60 and no
sell, a processed buy leaves the member's win rate at 0, while the ratio over sell and settle
trades is 100. -/
theorem winRate_ignores_settle_counterexample :
    (selectMembersById (ProcessTradeHandler exStoreHeld exBuy).1 "u1").map (fun m => m.winRate)
        = [0] ∧
    closingWinRate (ProcessTradeHandler exStoreHeld exBuy).1.trades "u1" = 100 := by
  have hacc : ¬ (exBuy.tradeType = "buy" ∧
      exBuy.shares * exBuy.price > exMemberHeld.currentBalance) := by
    norm_num [exBuy, exMemberHeld, exMember]
  have hap : (applyPosition exStoreHeld exBuy exMemberHeld.currentBalance).2.1 = none := by
    unfold applyPosition
    simp only [show exBuy.tradeType = "buy" by decide, if_true]
  have ht : (ProcessTradeHandler exStoreHeld exBuy).1.trades
      = [tradeData exBuy none, settleTrade asciiLower exPosition "M1" 1, tradeData exBuy none] := by
    rw [ProcessTradeHandler_accepted exStoreHeld exBuy exMemberHeld [] (by decide) hacc, hap]
    simp only [updateMemberAfterTrade, insertTrade, applyPosition_trades]
    rfl
  constructor
  · have hs : selectSellTrades (insertTrade
        (applyPosition exStoreHeld exBuy exMemberHeld.currentBalance).1
        (tradeData exBuy none)) exBuy.leagueMemberId = [] := by
      unfold selectSellTrades insertTrade
      simp only [applyPosition_trades]
      rfl
    rw [show ("u1" : String) = exBuy.leagueMemberId from rfl,
      ProcessTradeHandler_accepted_members exStoreHeld exBuy exMemberHeld [] (by decide) hacc,
      hap, hs]
    rfl
  · rw [ht]
    unfold closingWinRate
    have h1 : [tradeData exBuy none, settleTrade asciiLower exPosition "M1" 1, tradeData exBuy none].filter
        (fun t => decide
          (t.leagueMemberId = "u1" ∧ (t.tradeType = "sell" ∨ t.tradeType = "settle")))
        = [settleTrade asciiLower exPosition "M1" 1] := by
      rfl
    simp only [h1]
    simp [hasPositivePnl, settleTrade, exPosition, List.filter_cons]
    norm_num

/-- C9, amended: after every processed request of an existing member, the member's `winRate`
is 100 times the number of the member's sell trades with `pnl > 0` divided by the number of
the member's sell trades, over the trade history including the trade just recorded, and 0
when the member has no sell trade; settle trades are not counted. -/
theorem winRate_is_sell_ratio (st : Store) (req : TradeRequest)
    (m : Member) (ms : List Member)
    (hm : selectMembersById st req.leagueMemberId = m :: ms)
    (hacc : ¬ (req.tradeType = "buy" ∧ req.shares * req.price > m.currentBalance)) :
    (ProcessTradeHandler st req).1.trades
      = st.trades ++ [tradeData req (applyPosition st req m.currentBalance).2.1] ∧
    ∃ m1 rest,
      selectMembersById (ProcessTradeHandler st req).1 req.leagueMemberId = m1 :: rest ∧
      m1.winRate = sellWinRate (ProcessTradeHandler st req).1.trades req.leagueMemberId := by
  have ht : (ProcessTradeHandler st req).1.trades
      = (insertTrade (applyPosition st req m.currentBalance).1
          (tradeData req (applyPosition st req m.currentBalance).2.1)).trades := by
    rw [ProcessTradeHandler_accepted st req m ms hm hacc]
    rfl
  constructor
  · rw [ht]
    simp only [insertTrade, applyPosition_trades]
  · rw [ProcessTradeHandler_accepted_members st req m ms hm hacc, ht,
      ← computeWinRate_selectSellTrades]
    exact ⟨_, _, rfl, rfl⟩

/-- C9 amended, on the scenario sale: the win rate after it is the sell ratio. -/
theorem winRate_is_sell_ratio_witness :
    (ProcessTradeHandler exStore1 exSell).1.trades
      = exStore1.trades
          ++ [tradeData exSell (applyPosition exStore1 exSell exMember1.currentBalance).2.1] ∧
    ∃ m1 rest,
      selectMembersById (ProcessTradeHandler exStore1 exSell).1 exSell.leagueMemberId
        = m1 :: rest ∧
      m1.winRate
        = sellWinRate (ProcessTradeHandler exStore1 exSell).1.trades exSell.leagueMemberId :=
  winRate_is_sell_ratio exStore1 exSell exMember1 [] (by decide)
    (sell_not_rejected exSell _ (by decide))

/-! ## Which markets are settled -/

/-- A market without a token flagged winner is skipped by the loop body. -/
theorem settleMarket_no_winner (fetch : String → Option MarketData)
    (positions : List Position) (st : Store) (marketID : String)
    (h : ∀ md, fetch marketID = some md → md.tokens.find? (fun t => t.winner) = none) :
    settleMarket lower fetch positions st marketID = st := by
  unfold settleMarket
  cases hf : fetch marketID with
  | none => rfl
  | some md =>
    simp only
    have hw : findWinningOutcome lower md = "" := by
      unfold findWinningOutcome
      rw [findWinningOutcomeIn_eq, h md hf]
    rw [hw]
    split <;> simp

/-- A sweep in which no fetched market has a token flagged winner changes nothing. -/
theorem settleResolvedMarkets_no_winner (fetch : String → Option MarketData) (st : Store)
    (h : ∀ id md, fetch id = some md → md.tokens.find? (fun t => t.winner) = none) :
    settleResolvedMarkets lower fetch st = st := by
  unfold settleResolvedMarkets
  simp only
  split
  · rfl
  · unfold settleMarkets
    induction marketIDs st.positions with
    | nil => rfl
    | cons id ids ih =>
      rw [List.foldl_cons, settleMarket_no_winner fetch st.positions st id (h id)]
      exact ih

/-- C10 as stated fails: for a closed market in which two tokens are flagged winner the sweep
does not skip the market; it settles the open position with the first flagged outcome and
the ledger changes. -/
theorem two_winners_settled_counterexample :
    exMarketTwoWinners.closed = true ∧
    (exMarketTwoWinners.tokens.filter (fun t => t.winner)).length = 2 ∧
    settleResolvedMarkets asciiLower (fun _ => some exMarketTwoWinners) exStore2 = exStore3 ∧
    exStore3 ≠ exStore2 := by
  refine ⟨rfl, by decide, ?_, ?_⟩
  · have hids : marketIDs exStore2.positions = ["M1"] := by decide
    have hw : findWinningOutcome asciiLower exMarketTwoWinners = "yes" := by decide
    have hl : asciiLower "yes" = "yes" := by decide
    unfold settleResolvedMarkets
    simp only [hids, settleMarkets, List.foldl_cons, List.foldl_nil, settleMarket, hw]
    simp [exStore2, exMarketTwoWinners, settlePosition, hl, selectMembersById, exMember2,
      exMember, exPosition2, exPosition, insertTrade, updateMemberAfterSettle,
      deletePositionById, exStore3, settleTrade]
    norm_num
  · intro h
    have hp := congrArg (fun s => s.positions.length) h
    simp [exStore3, exStore2] at hp

/-- C10, amended: for a closed market, the loop body of `settleResolvedMarkets` skips the
market, changing nothing, when no token is flagged winner; when at least one token is flagged,
the winning outcome is the lower-cased outcome of the first flagged token, whatever other
tokens are flagged, and the positions of the snapshot on that market are settled with it in
order (the market is skipped only if that outcome is the empty text). -/
theorem settleMarket_uses_first_winner (fetch : String → Option MarketData)
    (positions : List Position) (st : Store) (marketID : String) (md : MarketData)
    (hf : fetch marketID = some md) (hc : md.closed = true) :
    (md.tokens.find? (fun t => t.winner) = none →
        settleMarket lower fetch positions st marketID = st) ∧
    (∀ tok, md.tokens.find? (fun t => t.winner) = some tok →
        findWinningOutcome lower md = lower tok.outcome ∧
        (lower tok.outcome ≠ "" →
          settleMarket lower fetch positions st marketID
            = positions.foldl (fun s position =>
                if position.marketId ≠ marketID then s
                else settlePosition lower s position marketID (lower tok.outcome)) st) ∧
        (lower tok.outcome = "" → settleMarket lower fetch positions st marketID = st)) := by
  constructor
  · intro hnone
    apply settleMarket_no_winner
    intro md1 hf1
    rw [hf] at hf1
    cases hf1
    exact hnone
  · intro tok htok
    have hw : findWinningOutcome lower md = lower tok.outcome := by
      unfold findWinningOutcome
      rw [findWinningOutcomeIn_eq, htok]
    refine ⟨hw, ?_, ?_⟩
    · intro hne
      unfold settleMarket
      simp only [hf, hc, hw, if_neg hne, not_true_eq_false, if_false]
    · intro he
      unfold settleMarket
      simp only [hf, hc, hw, he, if_true, not_true_eq_false, if_false]

/-- C10 amended, on the market with two tokens flagged winner. -/
theorem settleMarket_uses_first_winner_witness :
    (exMarketTwoWinners.tokens.find? (fun t => t.winner) = none →
        settleMarket asciiLower (fun _ => some exMarketTwoWinners) exStore2.positions exStore2 "M1"
          = exStore2) ∧
    (∀ tok, exMarketTwoWinners.tokens.find? (fun t => t.winner) = some tok →
        findWinningOutcome asciiLower exMarketTwoWinners = asciiLower tok.outcome ∧
        (asciiLower tok.outcome ≠ "" →
          settleMarket asciiLower (fun _ => some exMarketTwoWinners) exStore2.positions exStore2 "M1"
            = exStore2.positions.foldl (fun s position =>
                if position.marketId ≠ "M1" then s
                else settlePosition asciiLower s position "M1" (asciiLower tok.outcome)) exStore2) ∧
        (asciiLower tok.outcome = "" →
          settleMarket asciiLower (fun _ => some exMarketTwoWinners) exStore2.positions exStore2 "M1"
            = exStore2)) :=
  settleMarket_uses_first_winner (fun _ => some exMarketTwoWinners) exStore2.positions
    exStore2 "M1" exMarketTwoWinners rfl rfl

/-! ## Revaluation -/

/-- The price picked for the four spellings: only the exact text "no" gets the no price. -/
theorem pickPrice_spellings (yesPrice noPrice : ℚ) :
    pickPrice "yes" yesPrice noPrice = yesPrice ∧ pickPrice "no" yesPrice noPrice = noPrice ∧
    pickPrice "No" yesPrice noPrice = yesPrice ∧ pickPrice "NO" yesPrice noPrice = yesPrice := by
  unfold pickPrice
  refine ⟨?_, ?_, ?_, ?_⟩
  · rw [if_neg (by decide)]
  · rw [if_pos rfl]
  · rw [if_neg (by decide)]
  · rw [if_neg (by decide)]

/-- C11, the code at the failing input: a position whose outcome is stored as "No", revalued
with the quote yes 0.70 / no 0.30, receives the yes price 0.70 as `currentPrice` (and the
unrealized pnl computed from it), not the no price 0.30; `shares` and `entryPrice` are kept. -/
theorem revaluation_of_capitalised_no :
    (updateAllPositions (fun _ => some exQuote) exStoreNo).positions
      = [{ exPositionNo with
            currentPrice := 7 / 10
            unrealizedPnl := (7 / 10 - exPositionNo.entryPrice) * exPositionNo.shares }] := by
  have hids : marketIDs exStoreNo.positions = ["M1"] := by decide
  have hp : pickPrice "No" (7 / 10) (3 / 10) = 7 / 10 := (pickPrice_spellings _ _).2.2.1
  unfold updateAllPositions
  simp only [hids, revalueMarkets, List.foldl_cons, List.foldl_nil, revalueMarket]
  simp [exStoreNo, exQuote, parseOutcomePrices, exPositionNo, exPosition, hp,
    updatePositionPrice]

/-! ## Rankings -/

/-- The member rows after the ranking loop over rows with distinct ids: the row with the
`k`-th id of the list carries the rank `i + 1 + k`, every other row is untouched. -/
theorem updateRanks_members (l : List Member) :
    ∀ (st : Store) (i : Nat), (l.map (fun m => m.id)).Nodup →
      (updateRanks st i l).members = st.members.map (fun m =>
        if m.id ∈ l.map (fun x => x.id) then
          { m with rank := (i : Int) + 1 + ((l.map (fun x => x.id)).indexOf m.id : Nat) }
        else m) := by
  induction l with
  | nil =>
    intro st i _
    simp [updateRanks]
  | cons a l ih =>
    intro st i hnd
    rw [List.map_cons, List.nodup_cons] at hnd
    unfold updateRanks
    rw [ih _ _ hnd.2]
    simp only [updateMemberRank, List.map_map]
    apply List.map_congr_left
    intro m _
    simp only [Function.comp, List.map_cons, List.mem_cons]
    by_cases hma : m.id = a.id
    · have hnot : ¬ a.id ∈ l.map (fun x => x.id) := hnd.1
      simp only [hma, if_true, hnot, if_false, true_or, List.indexOf_cons_self]
      simp
    · have hne : a.id ≠ m.id := fun h => hma h.symm
      simp only [hma, if_false, false_or, List.indexOf_cons_ne _ hne]
      by_cases hin : m.id ∈ l.map (fun x => x.id)
      · simp only [hin, if_true]
        congr 1
        push_cast
        ring
      · simp only [hin, if_false]

/-- In a list without repetitions every element stands at its own index. -/
theorem map_indexOf_of_nodup (l : List String) (hnd : l.Nodup) :
    l.map (fun x => l.indexOf x) = List.range l.length := by
  induction l with
  | nil => rfl
  | cons a l ih =>
    rw [List.nodup_cons] at hnd
    rw [List.map_cons, List.indexOf_cons_self, List.length_cons, List.range_succ_eq_map,
      ← ih hnd.2, List.map_map]
    congr 1
    apply List.map_congr_left
    intro x hx
    have hne : a ≠ x := fun h => hnd.1 (h ▸ hx)
    simp only [Function.comp, List.indexOf_cons_ne _ hne]

/-- In a list sorted by `pnlDesc` whose ids are distinct, a row whose id stands earlier
has at least the total pnl of a row whose id stands later. -/
theorem pnlDesc_of_indexOf_lt (l : List Member) (hnd : (l.map (fun m => m.id)).Nodup)
    (hs : l.Pairwise pnlDesc) :
    ∀ a ∈ l, ∀ b ∈ l,
      (l.map (fun m => m.id)).indexOf a.id < (l.map (fun m => m.id)).indexOf b.id →
      pnlDesc a b := by
  induction l with
  | nil => intro a ha; cases ha
  | cons x l ih =>
    rw [List.map_cons, List.nodup_cons] at hnd
    rw [List.pairwise_cons] at hs
    have hid : ∀ y ∈ l, x.id ≠ y.id := fun y hy h =>
      hnd.1 (h ▸ List.mem_map_of_mem (fun m => m.id) hy)
    intro a ha b hb hlt
    rw [List.map_cons] at hlt
    rcases List.mem_cons.mp ha with rfl | ha
    · rcases List.mem_cons.mp hb with rfl | hb
      · exact absurd hlt (lt_irrefl _)
      · exact hs.1 b hb
    · rcases List.mem_cons.mp hb with rfl | hb
      · rw [List.indexOf_cons_self] at hlt
        exact absurd hlt (Nat.not_lt_zero _)
      · rw [List.indexOf_cons_ne _ (hid a ha), List.indexOf_cons_ne _ (hid b hb)] at hlt
        exact ih hnd.2 hs.2 a ha b hb (Nat.lt_of_succ_lt_succ hlt)

/-- The rows of a league after the ranking handler, when the member ids of the table are
distinct: each row of the league with its rank replaced by one plus the index of its id in
the ordered selection. -/
theorem rankings_league_rows (st : Store) (leagueID : String)
    (hnd : (st.members.map (fun m => m.id)).Nodup) :
    (UpdateLeagueRankingsHandler st leagueID).1.members.filter
        (fun m => m.leagueId = leagueID)
      = (st.members.filter (fun m => m.leagueId = leagueID)).map (fun m =>
          { m with rank := (1 : Int) +
              (((selectLeagueMembersOrdered st leagueID).map (fun x => x.id)).indexOf m.id
                : Nat) }) ∧
    ((selectLeagueMembersOrdered st leagueID).map (fun m => m.id)).Nodup := by
  have hperm : (selectLeagueMembersOrdered st leagueID).Perm
      (st.members.filter (fun m => m.leagueId = leagueID)) :=
    List.perm_insertionSort pnlDesc _
  have hids : ((selectLeagueMembersOrdered st leagueID).map (fun m => m.id)).Nodup := by
    rw [(hperm.map (fun m => m.id)).nodup_iff]
    exact hnd.sublist ((List.filter_sublist _).map _)
  refine ⟨?_, hids⟩
  unfold UpdateLeagueRankingsHandler
  simp only
  rw [updateRanks_members _ st 0 hids, List.filter_map]
  have hf : ((fun m : Member => decide (m.leagueId = leagueID)) ∘ fun m =>
      if m.id ∈ (selectLeagueMembersOrdered st leagueID).map (fun x => x.id) then
        { m with rank := ((0 : Nat) : Int) + 1 +
            (((selectLeagueMembersOrdered st leagueID).map (fun x => x.id)).indexOf m.id
              : Nat) }
      else m) = fun m : Member => decide (m.leagueId = leagueID) := by
    funext m
    simp only [Function.comp]
    split <;> rfl
  rw [hf]
  apply List.map_congr_left
  intro m hm
  have hin : m.id ∈ (selectLeagueMembersOrdered st leagueID).map (fun x => x.id) :=
    List.mem_map_of_mem (fun x => x.id) (hperm.mem_iff.mpr hm)
  rw [if_pos hin]
  simp

/-- C12: when the member ids of the table are distinct, after `UpdateLeagueRankingsHandler`
for a league with N members the ranks of the league's rows are, up to order, exactly
1, 2, ..., N (each once, also when total pnl values tie), a row with a smaller rank has at
least the total pnl of a row with a larger rank, and the handler reports N members updated. -/
theorem rankings_dense_and_ordered (st : Store) (leagueID : String)
    (hnd : (st.members.map (fun m => m.id)).Nodup) :
    (UpdateLeagueRankingsHandler st leagueID).2
      = (st.members.filter (fun m => m.leagueId = leagueID)).length ∧
    (((UpdateLeagueRankingsHandler st leagueID).1.members.filter
        (fun m => m.leagueId = leagueID)).map (fun m => m.rank)).Perm
      ((List.range (st.members.filter (fun m => m.leagueId = leagueID)).length).map
        (fun (k : Nat) => (k : Int) + 1)) ∧
    (∀ a ∈ (UpdateLeagueRankingsHandler st leagueID).1.members.filter
          (fun m => m.leagueId = leagueID),
      ∀ b ∈ (UpdateLeagueRankingsHandler st leagueID).1.members.filter
          (fun m => m.leagueId = leagueID),
      a.rank < b.rank → a.totalPnl ≥ b.totalPnl) := by
  have hperm : (selectLeagueMembersOrdered st leagueID).Perm
      (st.members.filter (fun m => m.leagueId = leagueID)) :=
    List.perm_insertionSort pnlDesc _
  have hsorted : (selectLeagueMembersOrdered st leagueID).Pairwise pnlDesc :=
    List.sorted_insertionSort pnlDesc _
  obtain ⟨hrows, hids⟩ := rankings_league_rows st leagueID hnd
  refine ⟨?_, ?_, ?_⟩
  · unfold UpdateLeagueRankingsHandler
    exact hperm.length_eq
  · rw [hrows, List.map_map, ← hperm.length_eq]
    refine ((hperm.map _).symm).trans ?_
    rw [← List.length_map (selectLeagueMembersOrdered st leagueID) (fun m => m.id),
      ← map_indexOf_of_nodup _ hids, List.map_map, List.map_map]
    apply List.Perm.of_eq
    apply List.map_congr_left
    intro m _
    simp only [Function.comp]
    ring
  · intro a ha b hb hlt
    rw [hrows] at ha hb
    obtain ⟨a0, ha0, rfl⟩ := List.mem_map.mp ha
    obtain ⟨b0, hb0, rfl⟩ := List.mem_map.mp hb
    simp only at hlt ⊢
    have hlt2 : ((selectLeagueMembersOrdered st leagueID).map (fun x => x.id)).indexOf a0.id
        < ((selectLeagueMembersOrdered st leagueID).map (fun x => x.id)).indexOf b0.id := by
      omega
    exact pnlDesc_of_indexOf_lt _ hids hsorted a0 (hperm.mem_iff.mpr ha0) b0
      (hperm.mem_iff.mpr hb0) hlt2

/-- C12, the scenario: two members with total pnl -10 and 50. -/
theorem rankings_dense_and_ordered_witness :
    (UpdateLeagueRankingsHandler exLeague "L1").2
      = (exLeague.members.filter (fun m => m.leagueId = "L1")).length ∧
    (((UpdateLeagueRankingsHandler exLeague "L1").1.members.filter
        (fun m => m.leagueId = "L1")).map (fun m => m.rank)).Perm
      ((List.range (exLeague.members.filter (fun m => m.leagueId = "L1")).length).map
        (fun (k : Nat) => (k : Int) + 1)) ∧
    (∀ a ∈ (UpdateLeagueRankingsHandler exLeague "L1").1.members.filter
          (fun m => m.leagueId = "L1"),
      ∀ b ∈ (UpdateLeagueRankingsHandler exLeague "L1").1.members.filter
          (fun m => m.leagueId = "L1"),
      a.rank < b.rank → a.totalPnl ≥ b.totalPnl) :=
  rankings_dense_and_ordered exLeague "L1" (by decide)

/-- The scenario evaluated: the member with total pnl 50 gets rank 1, the one with -10 gets
rank 2, and two members are reported. -/
theorem scenario_rankings :
    ((UpdateLeagueRankingsHandler exLeague "L1").1.members.map
        (fun m => (m.id, m.totalPnl, m.rank)) = [("a", -10, 2), ("b", 50, 1)]) ∧
    (UpdateLeagueRankingsHandler exLeague "L1").2 = 2 := by
  have hsel : selectLeagueMembersOrdered exLeague "L1"
      = [exLeague.members.get ⟨1, by decide⟩, exLeague.members.get ⟨0, by decide⟩] := by
    simp [selectLeagueMembersOrdered, exLeague, List.insertionSort, List.orderedInsert,
      pnlDesc]
    norm_num
  unfold UpdateLeagueRankingsHandler
  simp only [hsel]
  simp [updateRanks, updateMemberRank, exLeague]

/-! ## Settlement is idempotent -/

theorem selectMembersById_eq_nil_iff (st : Store) (x : String) :
    selectMembersById st x = [] ↔ x ∉ st.members.map (fun m => m.id) := by
  unfold selectMembersById
  rw [List.filter_eq_nil_iff]
  simp only [decide_eq_true_eq, List.mem_map, not_exists, not_and]

/-- The member ids are the same after `settlePosition`, and no position is added. -/
theorem settlePosition_frame (s : Store) (p : Position) (marketID w : String) :
    (settlePosition lower s p marketID w).members.map (fun m => m.id) = s.members.map (fun m => m.id) ∧
    (settlePosition lower s p marketID w).positions.Sublist s.positions := by
  cases hm : selectMembersById s p.leagueMemberId with
  | nil =>
    have h : settlePosition lower s p marketID w = s := by
      unfold settlePosition
      simp only [hm]
    rw [h]
    exact ⟨rfl, List.Sublist.refl _⟩
  | cons m ms =>
    rw [settlePosition_found s p marketID w m ms hm]
    constructor
    · simp only [deletePositionById, updateMemberAfterSettle, insertTrade, List.map_map]
      apply List.map_congr_left
      intro x _
      simp only [Function.comp]
      split <;> rfl
    · simp only [deletePositionById, updateMemberAfterSettle, insertTrade]
      exact List.filter_sublist _

/-- A position whose member row is missing is left alone by `settlePosition`. -/
theorem settlePosition_no_member (s : Store) (p : Position) (marketID w : String)
    (h : p.leagueMemberId ∉ s.members.map (fun m => m.id)) :
    settlePosition lower s p marketID w = s := by
  have hm := (selectMembersById_eq_nil_iff s p.leagueMemberId).mpr h
  unfold settlePosition
  simp only [hm]

/-- A position whose member row exists is deleted by `settlePosition`. -/
theorem settlePosition_deletes (s : Store) (p : Position) (marketID w : String)
    (h : p.leagueMemberId ∈ s.members.map (fun m => m.id)) :
    ∀ x ∈ (settlePosition lower s p marketID w).positions, x.id ≠ p.id := by
  cases hm : selectMembersById s p.leagueMemberId with
  | nil => exact absurd h ((selectMembersById_eq_nil_iff s p.leagueMemberId).mp hm)
  | cons m ms =>
    intro x hx
    rw [settlePosition_found s p marketID w m ms hm] at hx
    simp only [deletePositionById, List.mem_filter, decide_eq_true_eq] at hx
    exact hx.2

/-- The position loop of one settled market: member ids are kept, no position is added, and
every position of the snapshot on that market whose member row exists is gone afterwards. -/
theorem settleLoop_spec (marketID w : String) (l : List Position) :
    ∀ s : Store,
      ((l.foldl (fun s position =>
          if position.marketId ≠ marketID then s
          else settlePosition lower s position marketID w) s).members.map (fun m => m.id)
        = s.members.map (fun m => m.id)) ∧
      (l.foldl (fun s position =>
          if position.marketId ≠ marketID then s
          else settlePosition lower s position marketID w) s).positions.Sublist s.positions ∧
      (∀ p ∈ l, p.marketId = marketID → p.leagueMemberId ∈ s.members.map (fun m => m.id) →
        ∀ x ∈ (l.foldl (fun s position =>
          if position.marketId ≠ marketID then s
          else settlePosition lower s position marketID w) s).positions, x.id ≠ p.id) := by
  induction l with
  | nil =>
    intro s
    exact ⟨rfl, List.Sublist.refl _, fun p hp => absurd hp (List.not_mem_nil p)⟩
  | cons q rest ih =>
    intro s
    rw [List.foldl_cons]
    by_cases hq : q.marketId ≠ marketID
    · rw [if_pos hq]
      obtain ⟨h1, h2, h3⟩ := ih s
      refine ⟨h1, h2, ?_⟩
      intro p hp hpm
      rcases List.mem_cons.mp hp with rfl | hp
      · exact absurd hpm hq
      · exact h3 p hp hpm
    · rw [if_neg hq]
      obtain ⟨h1, h2, h3⟩ := ih (settlePosition lower s q marketID w)
      obtain ⟨f1, f2⟩ := settlePosition_frame s q marketID w
      refine ⟨h1.trans f1, h2.trans f2, ?_⟩
      intro p hp hpm hmem
      rcases List.mem_cons.mp hp with rfl | hp
      · intro x hx
        exact settlePosition_deletes s p marketID w hmem x (h2.subset hx)
      · exact h3 p hp hpm (f1 ▸ hmem)

/-- The position loop changes nothing when no position of the snapshot on that market has a
member row. -/
theorem settleLoop_noop (marketID w : String) (l : List Position) (s : Store)
    (h : ∀ p ∈ l, p.marketId = marketID → p.leagueMemberId ∉ s.members.map (fun m => m.id)) :
    l.foldl (fun s position =>
      if position.marketId ≠ marketID then s
      else settlePosition lower s position marketID w) s = s := by
  induction l with
  | nil => rfl
  | cons q rest ih =>
    rw [List.foldl_cons]
    have hstep : (if q.marketId ≠ marketID then s else settlePosition lower s q marketID w) = s := by
      by_cases hq : q.marketId ≠ marketID
      · rw [if_pos hq]
      · rw [if_neg hq]
        exact settlePosition_no_member s q marketID w
          (h q (List.mem_cons_self q rest) (not_not.mp hq))
    rw [hstep]
    exact ih (fun p hp => h p (List.mem_cons_of_mem q hp))

/-- The loop body for one market either skips the market or runs the position loop with the
winning outcome. -/
theorem settleMarket_cases (fetch : String → Option MarketData) (positions : List Position)
    (s : Store) (marketID : String) :
    (isSettled lower fetch marketID = false ∧ settleMarket lower fetch positions s marketID = s) ∨
    (isSettled lower fetch marketID = true ∧
      ∃ w, settleMarket lower fetch positions s marketID
        = positions.foldl (fun s position =>
            if position.marketId ≠ marketID then s
            else settlePosition lower s position marketID w) s) := by
  unfold isSettled settleMarket
  cases fetch marketID with
  | none => exact Or.inl ⟨rfl, rfl⟩
  | some md =>
    simp only
    by_cases hc : md.closed = true
    · by_cases hw : findWinningOutcome lower md = ""
      · left
        simp [hc, hw]
      · right
        refine ⟨by simp [hc, hw], findWinningOutcome lower md, ?_⟩
        simp only [hc, not_true_eq_false, if_false, hw]
    · left
      simp [hc]

/-- The loop body for one market: member ids are kept, no position is added, and if the
market is settled every position of the snapshot on it whose member row exists is gone. -/
theorem settleMarket_spec (fetch : String → Option MarketData) (positions : List Position)
    (s : Store) (marketID : String) :
    ((settleMarket lower fetch positions s marketID).members.map (fun m => m.id)
      = s.members.map (fun m => m.id)) ∧
    (settleMarket lower fetch positions s marketID).positions.Sublist s.positions ∧
    (isSettled lower fetch marketID = true →
      ∀ p ∈ positions, p.marketId = marketID →
        p.leagueMemberId ∈ s.members.map (fun m => m.id) →
        ∀ x ∈ (settleMarket lower fetch positions s marketID).positions, x.id ≠ p.id) := by
  rcases settleMarket_cases fetch positions s marketID with ⟨hf, he⟩ | ⟨_, w, he⟩
  · rw [he]
    refine ⟨rfl, List.Sublist.refl _, fun ht => ?_⟩
    rw [hf] at ht
    cases ht
  · rw [he]
    obtain ⟨h1, h2, h3⟩ := settleLoop_spec marketID w positions s
    exact ⟨h1, h2, fun _ => h3⟩

/-- The loop body changes nothing for a market that is skipped or on which no position of
the snapshot has a member row. -/
theorem settleMarket_noop (fetch : String → Option MarketData) (positions : List Position)
    (s : Store) (marketID : String)
    (h : isSettled lower fetch marketID = true → ∀ p ∈ positions, p.marketId = marketID →
      p.leagueMemberId ∉ s.members.map (fun m => m.id)) :
    settleMarket lower fetch positions s marketID = s := by
  rcases settleMarket_cases fetch positions s marketID with ⟨_, he⟩ | ⟨hf, w, he⟩
  · exact he
  · rw [he]
    exact settleLoop_noop marketID w positions s (h hf)

/-- The market loop over any order of market ids: member ids are kept, no position is added,
and every position of the snapshot on a settled market of the list whose member row exists is
gone afterwards. -/
theorem settleMarkets_spec (fetch : String → Option MarketData) (positions : List Position)
    (ids : List String) :
    ∀ s : Store,
      ((settleMarkets lower fetch positions ids s).members.map (fun m => m.id)
        = s.members.map (fun m => m.id)) ∧
      (settleMarkets lower fetch positions ids s).positions.Sublist s.positions ∧
      (∀ p ∈ positions, p.marketId ∈ ids → isSettled lower fetch p.marketId = true →
        p.leagueMemberId ∈ s.members.map (fun m => m.id) →
        ∀ x ∈ (settleMarkets lower fetch positions ids s).positions, x.id ≠ p.id) := by
  induction ids with
  | nil =>
    intro s
    exact ⟨rfl, List.Sublist.refl _, fun p _ hp => absurd hp (List.not_mem_nil _)⟩
  | cons id rest ih =>
    intro s
    unfold settleMarkets
    rw [List.foldl_cons]
    obtain ⟨h1, h2, h3⟩ := ih (settleMarket lower fetch positions s id)
    obtain ⟨m1, m2, m3⟩ := settleMarket_spec fetch positions s id
    unfold settleMarkets at h1 h2 h3
    refine ⟨h1.trans m1, h2.trans m2, ?_⟩
    intro p hp hin hset hmem
    by_cases hpid : p.marketId = id
    · intro x hx
      exact m3 (hpid ▸ hset) p hp hpid hmem x (h2.subset hx)
    · rcases List.mem_cons.mp hin with h | h
      · exact absurd h hpid
      · exact h3 p hp h hset (m1 ▸ hmem)

/-- The market loop changes nothing when no position of the snapshot on a settled market has
a member row. -/
theorem settleMarkets_noop (fetch : String → Option MarketData) (positions : List Position)
    (ids : List String) (s : Store)
    (h : ∀ p ∈ positions, isSettled lower fetch p.marketId = true →
      p.leagueMemberId ∉ s.members.map (fun m => m.id)) :
    settleMarkets lower fetch positions ids s = s := by
  unfold settleMarkets
  induction ids with
  | nil => rfl
  | cons id rest ih =>
    rw [List.foldl_cons, settleMarket_noop fetch positions s id
      (fun hset p hp hpm => h p hp (hpm ▸ hset))]
    exact ih

/-- After a sweep that visits the market of every open position, in whatever order, a
position that is still open on a settled market has no member row. -/
theorem settleMarkets_leftover (fetch : String → Option MarketData) (st : Store)
    (ids : List String) (hids : ∀ p ∈ st.positions, p.marketId ∈ ids) :
    ∀ p ∈ (settleMarkets lower fetch st.positions ids st).positions,
      isSettled lower fetch p.marketId = true →
      p.leagueMemberId ∉ (settleMarkets lower fetch st.positions ids st).members.map
        (fun m => m.id) := by
  obtain ⟨h1, h2, h3⟩ := settleMarkets_spec fetch st.positions ids st
  intro p hp hset hmem
  have hp0 : p ∈ st.positions := h2.subset hp
  exact h3 p hp0 (hids p hp0) hset (h1 ▸ hmem) p hp rfl

theorem mem_marketIDs (positions : List Position) :
    ∀ p ∈ positions, p.marketId ∈ marketIDs positions := by
  intro p hp
  unfold marketIDs
  exact List.mem_dedup.mpr (List.mem_map_of_mem (fun p => p.marketId) hp)

/-- C13: settlement is idempotent.  For every ledger and every fixed quote lookup, a second
run of `settleResolvedMarkets` right after a first one returns the ledger the first run left
(no member, trade or position changes): every position that the first run left open on a
settled market has no member row, all others on settled markets having been deleted. -/
theorem settleResolvedMarkets_idempotent (fetch : String → Option MarketData) (st : Store) :
    settleResolvedMarkets lower fetch (settleResolvedMarkets lower fetch st)
      = settleResolvedMarkets lower fetch st ∧
    (∀ p ∈ (settleResolvedMarkets lower fetch st).positions,
      isSettled lower fetch p.marketId = true →
      selectMembersById (settleResolvedMarkets lower fetch st) p.leagueMemberId = []) := by
  have hleft : ∀ p ∈ (settleResolvedMarkets lower fetch st).positions,
      isSettled lower fetch p.marketId = true →
      p.leagueMemberId ∉ (settleResolvedMarkets lower fetch st).members.map (fun m => m.id) := by
    unfold settleResolvedMarkets
    simp only
    split
    · rename_i h0
      intro p hp
      rw [List.length_eq_zero.mp h0] at hp
      exact absurd hp (List.not_mem_nil p)
    · exact settleMarkets_leftover fetch st _ (mem_marketIDs st.positions)
  refine ⟨?_, fun p hp hset => (selectMembersById_eq_nil_iff _ _).mpr (hleft p hp hset)⟩
  generalize settleResolvedMarkets lower fetch st = s1 at hleft ⊢
  unfold settleResolvedMarkets
  simp only
  split
  · rfl
  · exact settleMarkets_noop fetch s1.positions _ s1 hleft

/-! ## Failing store writes -/

/-- Without failing writes the handler with faults is `ProcessTradeHandler`. -/
theorem ProcessTradeHandlerWithFaults_noFaults (st : Store) (req : TradeRequest) :
    ProcessTradeHandlerWithFaults noFaults st req = ProcessTradeHandler st req := by
  unfold ProcessTradeHandlerWithFaults ProcessTradeHandler noFaults
  simp

/-- The position step of a buy. -/
theorem applyPosition_buy (st : Store) (req : TradeRequest) (b : ℚ)
    (hbuy : req.tradeType = "buy") :
    applyPosition st req b = (insertPosition st req, none, b - req.shares * req.price) := by
  unfold applyPosition
  simp only [hbuy, if_true]

/-- C15, the code at the failing input: the scenario buy (100 shares at 0.40, balance 1000)
against a store whose position insert fails is answered with success and the new balance
960; the member row carries the balance 960 and the trade is recorded, but the ledger holds
no position. -/
theorem buy_with_failing_position_insert :
    ProcessTradeHandlerWithFaults exPositionInsertFails exStore0 exBuy
      = ({ members := [exMember1], positions := [], trades := [tradeData exBuy none],
           nextPositionId := 0 },
         Response.success 960 none) := by
  have hacc : ¬ (exBuy.tradeType = "buy" ∧
      exBuy.shares * exBuy.price > exMember.currentBalance) := by
    norm_num [exBuy, exMember]
  unfold ProcessTradeHandlerWithFaults
  simp only [show selectMembersById exStore0 exBuy.leagueMemberId = [exMember] by decide]
  rw [if_neg hacc, applyPosition_buy exStore0 exBuy _ (by decide)]
  simp [exPositionInsertFails, exStore0, exMember, exMember1, exBuy, insertTrade, tradeData,
    updateMemberAfterTrade, computeWinRate, selectSellTrades]
  norm_num

/-! ## One position per triple -/

theorem updatePositionShares_keys (st : Store) (i : Nat) (sh u : ℚ) :
    (updatePositionShares st i sh u).positions.map positionKey
      = st.positions.map positionKey := by
  unfold updatePositionShares
  simp only [List.map_map]
  apply List.map_congr_left
  intro p _
  simp only [Function.comp]
  split <;> rfl

theorem updatePositionPrice_keys (st : Store) (i : Nat) (c u : ℚ) :
    (updatePositionPrice st i c u).positions.map positionKey
      = st.positions.map positionKey := by
  unfold updatePositionPrice
  simp only [List.map_map]
  apply List.map_congr_left
  intro p _
  simp only [Function.comp]
  split <;> rfl

/-- The triples after the position step: a buy appends the triple of the request, every
other request leaves a sublist of the triples. -/
theorem applyPosition_keys (st : Store) (req : TradeRequest) (b : ℚ) :
    (req.tradeType = "buy" →
      (applyPosition st req b).1.positions.map positionKey
        = st.positions.map positionKey ++ [requestKey req]) ∧
    (¬ req.tradeType = "buy" →
      ((applyPosition st req b).1.positions.map positionKey).Sublist
        (st.positions.map positionKey)) := by
  constructor
  · intro hbuy
    rw [applyPosition_buy st req b hbuy]
    simp only [insertPosition, List.map_append, List.map_cons, List.map_nil]
    rfl
  · intro hnb
    unfold applyPosition
    simp only [if_neg hnb]
    split
    · split
      · exact List.Sublist.refl _
      · split
        · exact (List.filter_sublist _).map _
        · rw [updatePositionShares_keys]
    · exact List.Sublist.refl _

/-- The positions after `ProcessTradeHandler`: untouched, or those the position step left. -/
theorem ProcessTradeHandler_positions_cases (st : Store) (req : TradeRequest) :
    (ProcessTradeHandler st req).1.positions = st.positions ∨
    ∃ b, (ProcessTradeHandler st req).1.positions = (applyPosition st req b).1.positions := by
  cases hm : selectMembersById st req.leagueMemberId with
  | nil =>
    left
    unfold ProcessTradeHandler
    simp only [hm]
  | cons m ms =>
    by_cases hacc : req.tradeType = "buy" ∧ req.shares * req.price > m.currentBalance
    · left
      unfold ProcessTradeHandler
      simp only [hm]
      rw [if_pos hacc]
    · right
      exact ⟨m.currentBalance, ProcessTradeHandler_accepted_positions st req m ms hm hacc⟩

/-- The revaluation sweep keeps the triples of all positions. -/
theorem updateAllPositions_keys (fetch : String → Option MarketData) (st : Store) :
    (updateAllPositions fetch st).positions.map positionKey
      = st.positions.map positionKey := by
  have hloop : ∀ (marketID : String) (prices : ℚ × ℚ) (l : List Position) (s : Store),
      (l.foldl (fun s position =>
        if position.marketId = marketID then
          updatePositionPrice s position.id
            (pickPrice position.outcome prices.1 prices.2)
            ((pickPrice position.outcome prices.1 prices.2 - position.entryPrice)
              * position.shares)
        else s) s).positions.map positionKey = s.positions.map positionKey := by
    intro marketID prices l
    induction l with
    | nil => intro s; rfl
    | cons q rest ih =>
      intro s
      rw [List.foldl_cons, ih]
      split
      · exact updatePositionPrice_keys _ _ _ _
      · rfl
  have hmarket : ∀ (positions : List Position) (s : Store) (marketID : String),
      (revalueMarket fetch positions s marketID).positions.map positionKey
        = s.positions.map positionKey := by
    intro positions s marketID
    unfold revalueMarket
    split
    · rfl
    · exact hloop _ _ _ _
  have hmarkets : ∀ (positions : List Position) (ids : List String) (s : Store),
      (revalueMarkets fetch positions ids s).positions.map positionKey
        = s.positions.map positionKey := by
    intro positions ids
    unfold revalueMarkets
    induction ids with
    | nil => intro s; rfl
    | cons id rest ih =>
      intro s
      rw [List.foldl_cons, ih, hmarket]
  unfold updateAllPositions
  simp only
  split
  · rfl
  · exact hmarkets _ _ _

/-- The settlement sweep adds no position. -/
theorem settleResolvedMarkets_positions_sublist (fetch : String → Option MarketData)
    (st : Store) :
    (settleResolvedMarkets lower fetch st).positions.Sublist st.positions := by
  unfold settleResolvedMarkets
  simp only
  split
  · exact List.Sublist.refl _
  · exact (settleMarkets_spec fetch st.positions _ st).2.1

/-- One operation keeps the triples distinct, unless it is a buy for a triple that already
has a position. -/
theorem step_keeps_unique (st : Store) (op : Op) (hu : UniqueTriples st.positions)
    (hfresh : match op with
      | Op.trade req => req.tradeType = "buy" → requestKey req ∉ st.positions.map positionKey
      | _ => True) :
    UniqueTriples (step lower st op).positions := by
  unfold UniqueTriples at hu ⊢
  cases op with
  | trade req =>
    simp only [step]
    rcases ProcessTradeHandler_positions_cases st req with h | ⟨b, h⟩
    · rw [h]; exact hu
    · rw [h]
      by_cases hbuy : req.tradeType = "buy"
      · rw [(applyPosition_keys st req b).1 hbuy]
        have hnot := hfresh hbuy
        rw [List.nodup_append]
        refine ⟨hu, List.nodup_singleton _, ?_⟩
        intro k hk hk1
        rw [List.mem_singleton] at hk1
        exact hnot (hk1 ▸ hk)
      · exact hu.sublist ((applyPosition_keys st req b).2 hbuy)
  | revalue fetch =>
    simp only [step]
    rw [updateAllPositions_keys]
    exact hu
  | settle fetch =>
    simp only [step]
    exact hu.sublist ((settleResolvedMarkets_positions_sublist fetch st).map _)

/-- A sequence of operations without a buy into an occupied triple keeps the triples
distinct. -/
theorem run_keeps_unique (ops : List Op) :
    ∀ st : Store, UniqueTriples st.positions → freshBuys lower st ops →
      UniqueTriples (run lower st ops).positions := by
  induction ops with
  | nil => intro st hu _; exact hu
  | cons op rest ih =>
    intro st hu hf
    unfold run
    rw [List.foldl_cons]
    exact ih (step lower st op) (step_keeps_unique st op hu hf.1) hf.2

/-- C14 as stated fails: starting from a ledger without positions, two buys of the same
request leave two open positions for the same (member, market, outcome) triple. -/
theorem two_buys_duplicate_counterexample :
    exStore0.positions = [] ∧
    ¬ UniqueTriples (run asciiLower exStore0 [Op.trade exBuy, Op.trade exBuy]).positions := by
  refine ⟨rfl, ?_⟩
  have h1 : step asciiLower exStore0 (Op.trade exBuy) = exStore1 := by
    simp only [step, scenario_buy]
  have hacc : ¬ (exBuy.tradeType = "buy" ∧
      exBuy.shares * exBuy.price > exMember1.currentBalance) := by
    norm_num [exBuy, exMember1, exMember]
  have h2 : (step asciiLower exStore1 (Op.trade exBuy)).positions.map positionKey
      = exStore1.positions.map positionKey ++ [requestKey exBuy] := by
    simp only [step]
    rw [ProcessTradeHandler_accepted_positions exStore1 exBuy exMember1 [] (by decide) hacc]
    exact (applyPosition_keys exStore1 exBuy _).1 (by decide)
  unfold UniqueTriples run
  rw [List.foldl_cons, List.foldl_cons, List.foldl_nil, h1, h2]
  decide

/-- C14, amended: in every ledger reached from an empty position set by a sequence of trade
requests, revaluation sweeps and settlement sweeps in which no buy names a (member, market,
outcome) triple that has an open position when the buy arrives, there is at most one open
position per triple. -/
theorem unique_triples_without_rebuy (st : Store) (ops : List Op)
    (h0 : st.positions = []) (hf : freshBuys lower st ops) :
    UniqueTriples (run lower st ops).positions := by
  apply run_keeps_unique ops st _ hf
  unfold UniqueTriples
  rw [h0]
  exact List.nodup_nil

/-- C14 amended, on the scenario: the buy, the sale and the settlement. -/
theorem unique_triples_without_rebuy_witness :
    UniqueTriples (run asciiLower exStore0
      [Op.trade exBuy, Op.trade exSell, Op.settle (fun _ => some exMarket)]).positions :=
  unique_triples_without_rebuy exStore0
    [Op.trade exBuy, Op.trade exSell, Op.settle (fun _ => some exMarket)] rfl
    ⟨fun _ h => absurd h (List.not_mem_nil _),
      fun h => absurd h (by decide), trivial, trivial⟩

/-! ## A position from buy to settlement -/

/-- The member rows after `settlePosition` when the member row is found. -/
theorem selectMembersById_settlePosition (s : Store) (p : Position) (marketID w : String)
    (m : Member) (ms : List Member)
    (hm : selectMembersById s p.leagueMemberId = m :: ms) :
    selectMembersById (settlePosition lower s p marketID w) p.leagueMemberId
      = (m :: ms).map (fun x =>
          { x with
            currentBalance := m.currentBalance
              + p.shares * (if lower p.outcome = w then 1 else 0)
            totalPnl := m.totalPnl + (p.shares * (if lower p.outcome = w then 1 else 0)
              - p.entryPrice * p.shares)
            totalTrades := m.totalTrades + 1 }) := by
  rw [settlePosition_found s p marketID w m ms hm]
  have hdel : ∀ (s : Store) (i : Nat) (x : String),
      selectMembersById (deletePositionById s i) x = selectMembersById s x :=
    fun _ _ _ => rfl
  have hins : ∀ (s : Store) (t : Trade) (x : String),
      selectMembersById (insertTrade s t) x = selectMembersById s x :=
    fun _ _ _ => rfl
  rw [hdel, selectMembersById_updateMemberAfterSettle, hins, hm]

/-- The positions after an accepted buy: the old rows and the inserted one. -/
theorem positions_after_buy (st : Store) (req : TradeRequest) (m : Member) (ms : List Member)
    (hm : selectMembersById st req.leagueMemberId = m :: ms)
    (hbuy : req.tradeType = "buy")
    (hacc : req.shares * req.price ≤ m.currentBalance) :
    (ProcessTradeHandler st req).1.positions = st.positions ++ [boughtPosition st req] := by
  have hnr : ¬ (req.tradeType = "buy" ∧ req.shares * req.price > m.currentBalance) :=
    fun h => absurd hacc (not_le.mpr h.2)
  rw [ProcessTradeHandler_accepted_positions st req m ms hm hnr,
    applyPosition_buy st req _ hbuy]
  rfl

/-- The lookup reads the positions table only. -/
theorem selectPositionLimit1_congr (s1 s2 : Store) (a b c : String)
    (h : s1.positions = s2.positions) :
    selectPositionLimit1 s1 a b c = selectPositionLimit1 s2 a b c := by
  unfold selectPositionLimit1
  rw [h]

/-- A row the lookup returns is a row of the table. -/
theorem mem_of_selectPositionLimit1 (st : Store) (a b c : String) (x : Position)
    (h : x ∈ selectPositionLimit1 st a b c) : x ∈ st.positions := by
  unfold selectPositionLimit1 at h
  split at h
  · exact List.mem_of_mem_filter (List.mem_of_mem_take h)
  · cases h

/-- The lookup after an accepted buy into a triple without a position, with values that
reach the store as written, returns the position the buy inserted. -/
theorem selectPositionLimit1_after_fresh_buy (st : Store) (req : TradeRequest)
    (m : Member) (ms : List Member)
    (hm : selectMembersById st req.leagueMemberId = m :: ms)
    (hbuy : req.tradeType = "buy")
    (hacc : req.shares * req.price ≤ m.currentBalance)
    (hnone : selectPositionLimit1 st req.leagueMemberId req.marketId req.outcome = [])
    (hsafe : querySafe req.leagueMemberId = true ∧ querySafe req.marketId = true ∧
      querySafe req.outcome = true) :
    selectPositionLimit1 (ProcessTradeHandler st req).1
        req.leagueMemberId req.marketId req.outcome
      = [boughtPosition st req] := by
  have hfil : ∀ p ∈ st.positions, ¬ (p.leagueMemberId = req.leagueMemberId ∧
      p.marketId = req.marketId ∧ p.outcome = req.outcome) := by
    unfold selectPositionLimit1 at hnone
    rw [if_pos hsafe] at hnone
    rcases List.take_eq_nil_iff.mp hnone with h | h
    · exact absurd h (by decide)
    · intro p hp
      have := List.filter_eq_nil_iff.mp h p hp
      rwa [decide_eq_true_eq] at this
  exact selectPositionLimit1_first _ _ _ _ st.positions [] (boughtPosition st req) hsafe
    (positions_after_buy st req m ms hm hbuy hacc) hfil ⟨rfl, rfl, rfl⟩

/-- The lookup after a sale of fewer shares than the found position holds. -/
theorem selectPositionLimit1_after_partial_sell (st : Store) (req : TradeRequest)
    (m : Member) (ms : List Member) (pos : Position)
    (hm : selectMembersById st req.leagueMemberId = m :: ms)
    (hsell : req.tradeType = "sell")
    (hpos : selectPositionLimit1 st req.leagueMemberId req.marketId req.outcome = [pos])
    (hlt : req.shares < pos.shares) :
    selectPositionLimit1 (ProcessTradeHandler st req).1
        req.leagueMemberId req.marketId req.outcome
      = [{ pos with
            shares := pos.shares - req.shares
            unrealizedPnl := (pos.currentPrice - pos.entryPrice) * (pos.shares - req.shares) }]
    := by
  have hacc := sell_not_rejected req m.currentBalance hsell
  have hap := applyPosition_sell_found st req m.currentBalance pos [] hsell hpos
  rw [if_neg (not_le.mpr hlt)] at hap
  have hsel := selectPositionLimit1_updatePositionShares st pos.id (pos.shares - req.shares)
    ((pos.currentPrice - pos.entryPrice) * (pos.shares - req.shares))
    req.leagueMemberId req.marketId req.outcome
  rw [hpos] at hsel
  simp only [List.map_cons, List.map_nil, if_true] at hsel
  rw [← hsel]
  apply selectPositionLimit1_congr
  rw [ProcessTradeHandler_accepted_positions st req m ms hm hacc, hap]

/-- The first member row after an accepted request, in terms of the position step. -/
theorem ProcessTradeHandler_accepted_first (st : Store) (req : TradeRequest) (m : Member)
    (ms : List Member) (hm : selectMembersById st req.leagueMemberId = m :: ms)
    (hacc : ¬ (req.tradeType = "buy" ∧ req.shares * req.price > m.currentBalance)) :
    ∃ m1 rest, selectMembersById (ProcessTradeHandler st req).1 req.leagueMemberId
        = m1 :: rest ∧
      m1.currentBalance = (applyPosition st req m.currentBalance).2.2 ∧
      m1.totalPnl = (match (applyPosition st req m.currentBalance).2.1 with
        | some v => m.totalPnl + v
        | none => m.totalPnl) ∧
      m1.totalTrades = m.totalTrades + 1 := by
  rw [ProcessTradeHandler_accepted_members st req m ms hm hacc]
  exact ⟨_, _, rfl, rfl, rfl, rfl⟩

/-- Settling a position closes the books: if so far the member's balance change plus the cost
basis of the position equals the change of the total pnl, then after the settlement the
balance change equals the change of the total pnl. -/
theorem settlePosition_closes_books (st2 : Store) (pos : Position)
    (memberId marketID : String) (m m2 : Member) (ms2 : List Member)
    (hm2 : selectMembersById st2 memberId = m2 :: ms2)
    (hposm : pos.leagueMemberId = memberId)
    (hinv : m2.currentBalance - m.currentBalance + pos.entryPrice * pos.shares
      = m2.totalPnl - m.totalPnl)
    (ht : m2.totalTrades = m.totalTrades + 2) :
    ∀ w : String, ∃ m3 rest,
      selectMembersById (settlePosition lower st2 pos marketID w) memberId = m3 :: rest ∧
      m3.currentBalance - m.currentBalance = m3.totalPnl - m.totalPnl ∧
      m3.totalTrades = m.totalTrades + 3 := by
  intro w
  subst hposm
  rw [selectMembersById_settlePosition st2 pos marketID w m2 ms2 hm2]
  refine ⟨_, _, rfl, ?_, ?_⟩
  · simp only
    linear_combination hinv
  · simp only [ht]
    ring

/-- C17: for an accepted buy of `s > 0` shares at price `p` into a triple without a position,
followed by a sale of `k` shares, `0 < k < s`, at any price `q`: the position the buy
inserted is still in the table with entry price `p`; it holds `s - k` shares and is the row
the lookup returns when the three values of the triple reach the store as written, and all
`s` shares otherwise (the sale then finds no position); and after its settlement against any
winning outcome (won or lost) the member's total change of `currentBalance` over the three
operations equals the total change of `totalPnl`, and `totalTrades` has grown by 3. -/
theorem buy_sell_settle_balance_equals_pnl (st : Store) (buy : TradeRequest) (k q : ℚ)
    (m : Member) (ms : List Member)
    (hm : selectMembersById st buy.leagueMemberId = m :: ms)
    (hbuy : buy.tradeType = "buy") (hs : 0 < buy.shares)
    (hacc : buy.shares * buy.price ≤ m.currentBalance)
    (hnone : selectPositionLimit1 st buy.leagueMemberId buy.marketId buy.outcome = [])
    (hk : 0 < k) (hks : k < buy.shares) :
    ∃ pos,
      pos ∈ (ProcessTradeHandler (ProcessTradeHandler st buy).1
          { buy with tradeType := "sell", shares := k, price := q }).1.positions ∧
      pos.id = st.nextPositionId ∧ pos.leagueMemberId = buy.leagueMemberId ∧
      pos.marketId = buy.marketId ∧ pos.outcome = buy.outcome ∧
      pos.entryPrice = buy.price ∧
      ((querySafe buy.leagueMemberId = true ∧ querySafe buy.marketId = true ∧
          querySafe buy.outcome = true) →
        selectPositionLimit1
            (ProcessTradeHandler (ProcessTradeHandler st buy).1
              { buy with tradeType := "sell", shares := k, price := q }).1
            buy.leagueMemberId buy.marketId buy.outcome = [pos] ∧
        pos.shares = buy.shares - k) ∧
      (¬ (querySafe buy.leagueMemberId = true ∧ querySafe buy.marketId = true ∧
          querySafe buy.outcome = true) → pos.shares = buy.shares) ∧
      ∀ w : String, ∃ m3 rest,
        selectMembersById
            (settlePosition lower
              (ProcessTradeHandler (ProcessTradeHandler st buy).1
                { buy with tradeType := "sell", shares := k, price := q }).1
              pos buy.marketId w)
            buy.leagueMemberId = m3 :: rest ∧
        m3.currentBalance - m.currentBalance = m3.totalPnl - m.totalPnl ∧
        m3.totalTrades = m.totalTrades + 3 := by
  have hnr : ¬ (buy.tradeType = "buy" ∧ buy.shares * buy.price > m.currentBalance) :=
    fun h => absurd hacc (not_le.mpr h.2)
  -- the buy
  obtain ⟨m1, ms1, hm1, hb1, hp1, ht1⟩ := ProcessTradeHandler_accepted_first st buy m ms hm hnr
  rw [applyPosition_buy st buy _ hbuy] at hb1 hp1
  simp only at hb1 hp1
  have hposs1 := positions_after_buy st buy m ms hm hbuy hacc
  have hsellty : ({ buy with tradeType := "sell", shares := k, price := q } :
      TradeRequest).tradeType = "sell" := rfl
  by_cases hsafe : querySafe buy.leagueMemberId = true ∧ querySafe buy.marketId = true ∧
      querySafe buy.outcome = true
  · -- the sale finds the bought position
    have hpos1 := selectPositionLimit1_after_fresh_buy st buy m ms hm hbuy hacc hnone hsafe
    generalize (ProcessTradeHandler st buy).1 = st1 at hm1 hpos1 hposs1 ⊢
    have hsacc := sell_not_rejected { buy with tradeType := "sell", shares := k, price := q }
      m1.currentBalance hsellty
    obtain ⟨m2, ms2, hm2, hb2, hp2, ht2⟩ := ProcessTradeHandler_accepted_first st1
      { buy with tradeType := "sell", shares := k, price := q } m1 ms1 hm1 hsacc
    rw [applyPosition_sell_found st1 { buy with tradeType := "sell", shares := k, price := q }
      _ _ [] hsellty hpos1] at hb2 hp2
    have hnge : ¬ (k ≥ (boughtPosition st buy).shares) := not_le.mpr hks
    simp only [hnge, if_false] at hb2 hp2
    have hpos2 := selectPositionLimit1_after_partial_sell st1
      { buy with tradeType := "sell", shares := k, price := q } m1 ms1 _ hm1 hsellty hpos1 hks
    generalize (ProcessTradeHandler st1
      { buy with tradeType := "sell", shares := k, price := q }).1 = st2 at hm2 hpos2 ⊢
    refine ⟨_, mem_of_selectPositionLimit1 st2 _ _ _ _ (hpos2 ▸ List.mem_singleton.mpr rfl),
      rfl, rfl, rfl, rfl, rfl, fun _ => ⟨hpos2, rfl⟩, fun h => absurd hsafe h, ?_⟩
    apply settlePosition_closes_books st2 _ buy.leagueMemberId buy.marketId m m2 ms2 hm2 rfl
    · simp only [boughtPosition] at hb2 hp2 ⊢
      rw [hb2, hp2, hb1, hp1]
      ring
    · rw [ht2, ht1]
      ring
  · -- the sale finds nothing
    generalize (ProcessTradeHandler st buy).1 = st1 at hm1 hposs1 ⊢
    have hnone1 : selectPositionLimit1 st1
        ({ buy with tradeType := "sell", shares := k, price := q } :
          TradeRequest).leagueMemberId
        ({ buy with tradeType := "sell", shares := k, price := q } : TradeRequest).marketId
        ({ buy with tradeType := "sell", shares := k, price := q } : TradeRequest).outcome
        = [] :=
      selectPositionLimit1_unsafe st1 _ _ _ hsafe
    have hsacc := sell_not_rejected { buy with tradeType := "sell", shares := k, price := q }
      m1.currentBalance hsellty
    obtain ⟨m2, ms2, hm2, hb2, hp2, ht2⟩ := ProcessTradeHandler_accepted_first st1
      { buy with tradeType := "sell", shares := k, price := q } m1 ms1 hm1 hsacc
    have hposs2 := ProcessTradeHandler_accepted_positions st1
      { buy with tradeType := "sell", shares := k, price := q } m1 ms1 hm1 hsacc
    rw [applyPosition_sell_none st1 { buy with tradeType := "sell", shares := k, price := q }
      _ hsellty hnone1] at hb2 hp2 hposs2
    simp only at hb2 hp2 hposs2
    generalize (ProcessTradeHandler st1
      { buy with tradeType := "sell", shares := k, price := q }).1 = st2 at hm2 hposs2 ⊢
    refine ⟨boughtPosition st buy, ?_, rfl, rfl, rfl, rfl, rfl,
      fun h => absurd h hsafe, fun _ => rfl, ?_⟩
    · rw [hposs2, hposs1]
      exact List.mem_append_right _ (List.mem_singleton.mpr rfl)
    · apply settlePosition_closes_books st2 _ buy.leagueMemberId buy.marketId m m2 ms2 hm2 rfl
      · simp only [boughtPosition]
        rw [hb2, hp2, hb1, hp1]
        ring
      · rw [ht2, ht1]
        ring

/-- C17, the scenario: balance 1000, buy 100 at 0.40, sell 40 at 0.60, settle. -/
theorem buy_sell_settle_balance_equals_pnl_witness :
    ∃ pos,
      pos ∈ (ProcessTradeHandler (ProcessTradeHandler exStore0 exBuy).1
          { exBuy with tradeType := "sell", shares := 40, price := 3 / 5 }).1.positions ∧
      pos.id = exStore0.nextPositionId ∧ pos.leagueMemberId = exBuy.leagueMemberId ∧
      pos.marketId = exBuy.marketId ∧ pos.outcome = exBuy.outcome ∧
      pos.entryPrice = exBuy.price ∧
      ((querySafe exBuy.leagueMemberId = true ∧ querySafe exBuy.marketId = true ∧
          querySafe exBuy.outcome = true) →
        selectPositionLimit1
            (ProcessTradeHandler (ProcessTradeHandler exStore0 exBuy).1
              { exBuy with tradeType := "sell", shares := 40, price := 3 / 5 }).1
            exBuy.leagueMemberId exBuy.marketId exBuy.outcome = [pos] ∧
        pos.shares = exBuy.shares - 40) ∧
      (¬ (querySafe exBuy.leagueMemberId = true ∧ querySafe exBuy.marketId = true ∧
          querySafe exBuy.outcome = true) → pos.shares = exBuy.shares) ∧
      ∀ w : String, ∃ m3 rest,
        selectMembersById
            (settlePosition asciiLower
              (ProcessTradeHandler (ProcessTradeHandler exStore0 exBuy).1
                { exBuy with tradeType := "sell", shares := 40, price := 3 / 5 }).1
              pos exBuy.marketId w)
            exBuy.leagueMemberId = m3 :: rest ∧
        m3.currentBalance - exMember.currentBalance = m3.totalPnl - exMember.totalPnl ∧
        m3.totalTrades = exMember.totalTrades + 3 :=
  buy_sell_settle_balance_equals_pnl exStore0 exBuy 40 (3 / 5) exMember [] (by decide)
    (by decide) (by norm_num [exBuy]) (by norm_num [exBuy, exMember]) (by decide)
    (by norm_num) (by norm_num [exBuy])

/-- The numbers of the scenario after the three operations: balance 1044, total pnl 44 and
three trades, so both changes are 44. -/
theorem scenario_totals :
    exStore3.members.map (fun m => (m.currentBalance, m.totalPnl, m.totalTrades))
      = [(1044, 44, 3)] ∧
    (1044 : ℚ) - exMember.currentBalance = 44 - exMember.totalPnl := by
  constructor
  · rfl
  · norm_num [exMember]

/-! ## The ranking sweep over all active leagues -/

/-- The ranking loop for one league on a table with distinct member ids: the count, the
ranks and their order (the facts the sweep over all leagues builds on). -/
theorem rankings_league_dense_core (st : Store) (leagueID : String)
    (hnd : (st.members.map (fun m => m.id)).Nodup) :
    (UpdateLeagueRankingsHandler st leagueID).2
      = (st.members.filter (fun m => m.leagueId = leagueID)).length ∧
    (((UpdateLeagueRankingsHandler st leagueID).1.members.filter
        (fun m => m.leagueId = leagueID)).map (fun m => m.rank)).Perm
      ((List.range (st.members.filter (fun m => m.leagueId = leagueID)).length).map
        (fun (k : Nat) => (k : Int) + 1)) ∧
    (∀ a ∈ (UpdateLeagueRankingsHandler st leagueID).1.members.filter
          (fun m => m.leagueId = leagueID),
      ∀ b ∈ (UpdateLeagueRankingsHandler st leagueID).1.members.filter
          (fun m => m.leagueId = leagueID),
      a.rank < b.rank → a.totalPnl ≥ b.totalPnl) := by
  have hperm : (selectLeagueMembersOrdered st leagueID).Perm
      (st.members.filter (fun m => m.leagueId = leagueID)) :=
    List.perm_insertionSort pnlDesc _
  have hsorted : (selectLeagueMembersOrdered st leagueID).Pairwise pnlDesc :=
    List.sorted_insertionSort pnlDesc _
  obtain ⟨hrows, hids⟩ := rankings_league_rows st leagueID hnd
  refine ⟨?_, ?_, ?_⟩
  · unfold UpdateLeagueRankingsHandler
    exact hperm.length_eq
  · rw [hrows, List.map_map, ← hperm.length_eq]
    refine ((hperm.map _).symm).trans ?_
    rw [← List.length_map (selectLeagueMembersOrdered st leagueID) (fun m => m.id),
      ← map_indexOf_of_nodup _ hids, List.map_map, List.map_map]
    apply List.Perm.of_eq
    apply List.map_congr_left
    intro m _
    simp only [Function.comp]
    ring
  · intro a ha b hb hlt
    rw [hrows] at ha hb
    obtain ⟨a0, ha0, rfl⟩ := List.mem_map.mp ha
    obtain ⟨b0, hb0, rfl⟩ := List.mem_map.mp hb
    simp only at hlt ⊢
    have hlt2 : ((selectLeagueMembersOrdered st leagueID).map (fun x => x.id)).indexOf a0.id
        < ((selectLeagueMembersOrdered st leagueID).map (fun x => x.id)).indexOf b0.id := by
      omega
    exact pnlDesc_of_indexOf_lt _ hids hsorted a0 (hperm.mem_iff.mpr ha0) b0
      (hperm.mem_iff.mpr hb0) hlt2


/-- The ranking loop changes no id, league or total pnl. -/
theorem updateRanks_frame (l : List Member) :
    ∀ (s : Store) (i : Nat),
      (updateRanks s i l).members.map (fun m => (m.id, m.leagueId, m.totalPnl))
        = s.members.map (fun m => (m.id, m.leagueId, m.totalPnl)) := by
  induction l with
  | nil => intro s i; rfl
  | cons a rest ih =>
    intro s i
    unfold updateRanks
    rw [ih]
    simp only [updateMemberRank, List.map_map]
    apply List.map_congr_left
    intro m _
    simp only [Function.comp]
    split <;> rfl

/-- The ranking loop over rows whose ids do not occur in a league leaves the rows of that
league as they are. -/
theorem updateRanks_other_league (leagueID : String) (l : List Member) :
    ∀ (s : Store) (i : Nat),
      (∀ m ∈ s.members.filter (fun m => m.leagueId = leagueID), ∀ x ∈ l, m.id ≠ x.id) →
      (updateRanks s i l).members.filter (fun m => m.leagueId = leagueID)
        = s.members.filter (fun m => m.leagueId = leagueID) := by
  induction l with
  | nil => intro s i _; rfl
  | cons a rest ih =>
    intro s i h
    have hstep : (updateMemberRank s a.id ((i : Int) + 1)).members.filter
        (fun m => m.leagueId = leagueID)
        = s.members.filter (fun m => m.leagueId = leagueID) := by
      unfold updateMemberRank
      simp only
      rw [List.filter_map]
      have hf : ((fun m : Member => decide (m.leagueId = leagueID)) ∘ fun m =>
          if m.id = a.id then { m with rank := (i : Int) + 1 } else m)
          = fun m : Member => decide (m.leagueId = leagueID) := by
        funext m
        simp only [Function.comp]
        split <;> rfl
      rw [hf]
      conv_rhs => rw [← List.map_id (s.members.filter (fun m => m.leagueId = leagueID))]
      apply List.map_congr_left
      intro m hm
      rw [if_neg (h m hm a (List.mem_cons_self a rest))]
      rfl
    unfold updateRanks
    rw [ih _ _ (by
      intro m hm x hx
      rw [hstep] at hm
      exact h m hm x (List.mem_cons_of_mem a hx)), hstep]

/-- The ranking sweep over the active leagues: when the member ids of the table are distinct
and the league is among the active ones, the ranks of its N rows afterwards are, up to order,
1, 2, ..., N, and a row with a smaller rank has at least the total pnl of a row with a larger
rank. -/
theorem updateAllLeagueRankings_dense_and_ordered (activeLeagues : List String) (st : Store)
    (leagueID : String) (hnd : (st.members.map (fun m => m.id)).Nodup)
    (hin : leagueID ∈ activeLeagues) :
    ((updateAllLeagueRankings activeLeagues st).members.map
        (fun m => (m.id, m.leagueId, m.totalPnl))
      = st.members.map (fun m => (m.id, m.leagueId, m.totalPnl))) ∧
    ((((updateAllLeagueRankings activeLeagues st).members.filter
        (fun m => m.leagueId = leagueID)).map (fun m => m.rank)).Perm
      ((List.range (st.members.filter (fun m => m.leagueId = leagueID)).length).map
        (fun (k : Nat) => (k : Int) + 1))) ∧
    (∀ a ∈ (updateAllLeagueRankings activeLeagues st).members.filter
          (fun m => m.leagueId = leagueID),
      ∀ b ∈ (updateAllLeagueRankings activeLeagues st).members.filter
          (fun m => m.leagueId = leagueID),
      a.rank < b.rank → a.totalPnl ≥ b.totalPnl) := by
  have hframe : ∀ ls : List String,
      (updateAllLeagueRankings ls st).members.map (fun m => (m.id, m.leagueId, m.totalPnl))
        = st.members.map (fun m => (m.id, m.leagueId, m.totalPnl)) := by
    intro ls
    induction ls using List.reverseRecOn with
    | nil => rfl
    | append_singleton init last ih =>
      unfold updateAllLeagueRankings at ih ⊢
      rw [List.foldl_append, List.foldl_cons, List.foldl_nil, updateRanks_frame, ih]
  have hcount : ∀ s : Store,
      s.members.map (fun m => (m.id, m.leagueId, m.totalPnl))
        = st.members.map (fun m => (m.id, m.leagueId, m.totalPnl)) →
      (s.members.map (fun m => m.id)).Nodup ∧
      (s.members.filter (fun m => m.leagueId = leagueID)).length
        = (st.members.filter (fun m => m.leagueId = leagueID)).length := by
    intro s hs
    have h1 : s.members.map (fun m => m.id) = st.members.map (fun m => m.id) := by
      have h := congrArg (List.map (fun t : String × String × ℚ => t.1)) hs
      rw [List.map_map, List.map_map] at h
      exact h
    have h2 : s.members.map (fun m => m.leagueId) = st.members.map (fun m => m.leagueId) := by
      have h := congrArg (List.map (fun t : String × String × ℚ => t.2.1)) hs
      rw [List.map_map, List.map_map] at h
      exact h
    constructor
    · rw [h1]
      exact hnd
    · have hc : ∀ ms : List Member,
          (ms.filter (fun m => m.leagueId = leagueID)).length
            = ((ms.map (fun m => m.leagueId)).filter (fun x => x = leagueID)).length := by
        intro ms
        rw [List.filter_map, List.length_map]
        rfl
      rw [hc, hc, h2]
  refine ⟨hframe activeLeagues, ?_⟩
  induction activeLeagues using List.reverseRecOn with
  | nil => exact absurd hin (List.not_mem_nil _)
  | append_singleton init last ih =>
    have hs1 := hframe init
    obtain ⟨hnd1, hlen1⟩ := hcount _ hs1
    have hunf : updateAllLeagueRankings (init ++ [last]) st
        = (UpdateLeagueRankingsHandler (updateAllLeagueRankings init st) last).1 := by
      unfold updateAllLeagueRankings UpdateLeagueRankingsHandler
      rw [List.foldl_append, List.foldl_cons, List.foldl_nil]
    rw [hunf]
    by_cases hlast : last = leagueID
    · subst hlast
      obtain ⟨_, h2, h3⟩ := rankings_league_dense_core (updateAllLeagueRankings init st)
        last hnd1
      rw [hlen1] at h2
      exact ⟨h2, h3⟩
    · have hin1 : leagueID ∈ init := by
        rcases List.mem_append.mp hin with h | h
        · exact h
        · exact absurd (List.mem_singleton.mp h).symm hlast
      have hsame : (UpdateLeagueRankingsHandler (updateAllLeagueRankings init st)
          last).1.members.filter (fun m => m.leagueId = leagueID)
          = (updateAllLeagueRankings init st).members.filter
              (fun m => m.leagueId = leagueID) := by
        unfold UpdateLeagueRankingsHandler
        apply updateRanks_other_league
        intro m hm x hx heq
        have hx1 : x ∈ (updateAllLeagueRankings init st).members.filter
            (fun m => m.leagueId = last) :=
          (List.perm_insertionSort pnlDesc _).mem_iff.mp hx
        rw [List.mem_filter, decide_eq_true_eq] at hm hx1
        have hmx : m = x := List.inj_on_of_nodup_map hnd1 hm.1 hx1.1 heq
        exact hlast (by rw [← hx1.2, ← hmx, hm.2])
      rw [hsame]
      exact ih hin1

/-! ## Two trade requests for one member -/

/-- The handler is its read of the member row followed by `completeTrade` on the row read. -/
theorem ProcessTradeHandler_eq_completeTrade (st : Store) (req : TradeRequest) (m : Member)
    (ms : List Member) (hm : selectMembersById st req.leagueMemberId = m :: ms) :
    ProcessTradeHandler st req = completeTrade st req m := by
  unfold ProcessTradeHandler completeTrade
  simp only [hm]

/-- What `completeTrade` leaves for an accepted request, in terms of the position step. -/
theorem completeTrade_accepted (st : Store) (req : TradeRequest) (m : Member)
    (hacc : ¬ (req.tradeType = "buy" ∧ req.shares * req.price > m.currentBalance)) :
    completeTrade st req m =
      (updateMemberAfterTrade
          (insertTrade (applyPosition st req m.currentBalance).1
            (tradeData req (applyPosition st req m.currentBalance).2.1))
          req.leagueMemberId (applyPosition st req m.currentBalance).2.2
          (match (applyPosition st req m.currentBalance).2.1 with
            | some v => m.totalPnl + v
            | none => m.totalPnl)
          (m.totalTrades + 1)
          (computeWinRate (selectSellTrades
            (insertTrade (applyPosition st req m.currentBalance).1
              (tradeData req (applyPosition st req m.currentBalance).2.1))
            req.leagueMemberId)),
        Response.success (applyPosition st req m.currentBalance).2.2
          (applyPosition st req m.currentBalance).2.1) := by
  unfold completeTrade
  simp only
  rw [if_neg hacc]

/-- The trades table after `completeTrade` of an accepted request. -/
theorem completeTrade_accepted_trades (st : Store) (req : TradeRequest) (m : Member)
    (hacc : ¬ (req.tradeType = "buy" ∧ req.shares * req.price > m.currentBalance)) :
    (completeTrade st req m).1.trades
      = st.trades ++ [tradeData req (applyPosition st req m.currentBalance).2.1] := by
  rw [completeTrade_accepted st req m hacc]
  simp only [updateMemberAfterTrade, insertTrade, applyPosition_trades]

/-- The member ids after `completeTrade` are those before. -/
theorem completeTrade_member_ids (st : Store) (req : TradeRequest) (m : Member) :
    (completeTrade st req m).1.members.map (fun x => x.id)
      = st.members.map (fun x => x.id) := by
  by_cases hacc : req.tradeType = "buy" ∧ req.shares * req.price > m.currentBalance
  · unfold completeTrade
    simp only
    rw [if_pos hacc]
  · rw [completeTrade_accepted st req m hacc]
    simp only [updateMemberAfterTrade, insertTrade, applyPosition_members, List.map_map]
    apply List.map_congr_left
    intro x _
    simp only [Function.comp]
    split <;> rfl

/-- C16 as stated fails: two buys of the member with balance 1000, worth 40 and 25, that both
read the member row before either writes it leave the balance 975 and `totalTrades` 1, while
both sequential executions leave 935 and 2. -/
theorem lost_update_counterexample :
    (bothReadThenWrite exStore0 exBuy exBuy25).members.map
        (fun m => (m.currentBalance, m.totalPnl, m.totalTrades)) = [(975, 0, 1)] ∧
    (ProcessTradeHandler (ProcessTradeHandler exStore0 exBuy).1 exBuy25).1.members.map
        (fun m => (m.currentBalance, m.totalPnl, m.totalTrades)) = [(935, 0, 2)] ∧
    (ProcessTradeHandler (ProcessTradeHandler exStore0 exBuy25).1 exBuy).1.members.map
        (fun m => (m.currentBalance, m.totalPnl, m.totalTrades)) = [(935, 0, 2)] := by
  have hb : ¬ ("buy" : String) = "sell" := by decide
  refine ⟨?_, ?_, ?_⟩
  · simp [bothReadThenWrite, completeTrade, selectMembersById, exStore0, exMember, exBuy,
      exBuy25, applyPosition, insertPosition, insertTrade, tradeData, updateMemberAfterTrade,
      computeWinRate, selectSellTrades, hb]
    norm_num
  · simp [ProcessTradeHandler, selectMembersById, exStore0, exMember, exBuy,
      exBuy25, applyPosition, insertPosition, insertTrade, tradeData, updateMemberAfterTrade,
      computeWinRate, selectSellTrades, hb]
    norm_num
  · simp [ProcessTradeHandler, selectMembersById, exStore0, exMember, exBuy,
      exBuy25, applyPosition, insertPosition, insertTrade, tradeData, updateMemberAfterTrade,
      computeWinRate, selectSellTrades, hb]
    norm_num

/-- The member rows of an id are not touched by the position step and the trade insert. -/
theorem selectMembersById_after_position_and_trade (s : Store) (req : TradeRequest) (b : ℚ)
    (t : Trade) (x : String) :
    selectMembersById (insertTrade (applyPosition s req b).1 t) x = selectMembersById s x := by
  unfold selectMembersById insertTrade
  simp only [applyPosition_members]

/-- C16, amended: `ProcessTradeHandler` is its read of the member row followed by the rest of
the handler on the row read, with no lock in between.  When two accepted trade requests of
one member both read the member row before either writes it, both trades are recorded, but
the member row afterwards carries what the later writer computed from the row read before
both: `totalTrades` has grown by one only and, when the later writer is a buy,
`currentBalance` is the old balance minus the value of that buy alone and `totalPnl` is the
old one; the member fields written by the first request are lost. -/
theorem lost_update_of_member_fields (st : Store) (first second : TradeRequest)
    (m : Member) (ms : List Member)
    (hm : selectMembersById st first.leagueMemberId = m :: ms)
    (hsame : second.leagueMemberId = first.leagueMemberId)
    (hacc1 : ¬ (first.tradeType = "buy" ∧ first.shares * first.price > m.currentBalance))
    (hacc2 : ¬ (second.tradeType = "buy" ∧ second.shares * second.price > m.currentBalance)) :
    ProcessTradeHandler st first = completeTrade st first m ∧
    (∃ t1 t2, (bothReadThenWrite st first second).trades = st.trades ++ [t1, t2] ∧
        t1.leagueMemberId = first.leagueMemberId ∧ t1.tradeType = first.tradeType ∧
        t1.shares = first.shares ∧ t1.price = first.price ∧
        t2.leagueMemberId = second.leagueMemberId ∧ t2.tradeType = second.tradeType ∧
        t2.shares = second.shares ∧ t2.price = second.price) ∧
    ∃ m2 rest,
      selectMembersById (bothReadThenWrite st first second) first.leagueMemberId
        = m2 :: rest ∧
      m2.totalTrades = m.totalTrades + 1 ∧
      (second.tradeType = "buy" →
        m2.currentBalance = m.currentBalance - second.shares * second.price ∧
        m2.totalPnl = m.totalPnl) := by
  have hm2 : selectMembersById st second.leagueMemberId = m :: ms := by rw [hsame]; exact hm
  have hunf : bothReadThenWrite st first second
      = (completeTrade (completeTrade st first m).1 second m).1 := by
    unfold bothReadThenWrite
    simp only [hm, hm2]
  refine ⟨ProcessTradeHandler_eq_completeTrade st first m ms hm, ?_, ?_⟩
  · refine ⟨tradeData first (applyPosition st first m.currentBalance).2.1,
      tradeData second
        (applyPosition (completeTrade st first m).1 second m.currentBalance).2.1,
      ?_, rfl, rfl, rfl, rfl, rfl, rfl, rfl, rfl⟩
    rw [hunf, completeTrade_accepted_trades _ second m hacc2,
      completeTrade_accepted_trades st first m hacc1, List.append_assoc]
    rfl
  · have h1 : selectMembersById (completeTrade st first m).1 second.leagueMemberId
        = (m :: ms).map (fun x =>
            { x with
              currentBalance := (applyPosition st first m.currentBalance).2.2
              totalPnl := (match (applyPosition st first m.currentBalance).2.1 with
                | some v => m.totalPnl + v
                | none => m.totalPnl)
              totalTrades := m.totalTrades + 1
              winRate := computeWinRate (selectSellTrades
                (insertTrade (applyPosition st first m.currentBalance).1
                  (tradeData first (applyPosition st first m.currentBalance).2.1))
                first.leagueMemberId) }) := by
      rw [completeTrade_accepted st first m hacc1, hsame]
      simp only
      rw [selectMembersById_updateMemberAfterTrade,
        selectMembersById_after_position_and_trade, hm]
    rw [hunf, completeTrade_accepted _ second m hacc2, ← hsame]
    simp only
    rw [selectMembersById_updateMemberAfterTrade,
      selectMembersById_after_position_and_trade, h1]
    refine ⟨_, _, rfl, rfl, ?_⟩
    intro hbuy
    rw [applyPosition_buy _ second _ hbuy]
    exact ⟨rfl, rfl⟩

/-- C16 amended, on the two buys worth 40 and 25 of the member with balance 1000. -/
theorem lost_update_of_member_fields_witness :
    ProcessTradeHandler exStore0 exBuy = completeTrade exStore0 exBuy exMember ∧
    (∃ t1 t2, (bothReadThenWrite exStore0 exBuy exBuy25).trades
          = exStore0.trades ++ [t1, t2] ∧
        t1.leagueMemberId = exBuy.leagueMemberId ∧ t1.tradeType = exBuy.tradeType ∧
        t1.shares = exBuy.shares ∧ t1.price = exBuy.price ∧
        t2.leagueMemberId = exBuy25.leagueMemberId ∧ t2.tradeType = exBuy25.tradeType ∧
        t2.shares = exBuy25.shares ∧ t2.price = exBuy25.price) ∧
    ∃ m2 rest,
      selectMembersById (bothReadThenWrite exStore0 exBuy exBuy25) exBuy.leagueMemberId
        = m2 :: rest ∧
      m2.totalTrades = exMember.totalTrades + 1 ∧
      (exBuy25.tradeType = "buy" →
        m2.currentBalance = exMember.currentBalance - exBuy25.shares * exBuy25.price ∧
        m2.totalPnl = exMember.totalPnl) :=
  lost_update_of_member_fields exStore0 exBuy exBuy25 exMember [] (by decide) (by decide)
    (by norm_num [exBuy, exMember]) (by norm_num [exBuy25, exBuy, exMember])

end PolyLabs
